import Mathlib

/-!
Verification development for the concurrent propagate-and-search Sudoku
solver (src/sudoku.rs).  The Rust data model and algorithms are shallowly
embedded: `i8`/`isize` fields become `Int` (no arithmetic in the program
ever leaves those ranges), fixed-size arrays become `Mathlib.Vector`,
loops become structural recursion, and the in-range assertions of the
source become `Fin 9` indices.  The `assert!` on the result of
`propagate_solution` in `populate_board_using_input` is rendered as a
`Bool` component (`false` = the assertion fires and the process aborts),
and the trailing `assert!(false)` of `parallel_solve` is rendered as the
`panicked` flag of `SolveOut`.  The two process-wide atomics
(`THREAD_QUOTA_IN_USE`, `EXECUTION_CANCELLED`) are threaded through the
recursion as explicit state `GState`; a spawned worker is modelled by
running its search at the spawn point (one legal interleaving of the real
program, and exact for `max_threads = 1`, where no worker is spawned).
-/

open Mathlib

set_option maxRecDepth 40000
set_option maxHeartbeats 2000000

/-- Model of `struct Square` (src/sudoku.rs lines 39-44): the settled value
(`0` when unsettled), the count of remaining candidates, and the nine
candidate flags. -/
structure Square where
  solution : Int
  num_possible : Int
  possible : Vector Bool 9
deriving DecidableEq

/-- Model of `struct State` (src/sudoku.rs lines 33-37): the count of
unsolved squares and the 9 x 9 board. -/
structure State where
  unsolved_squares : Int
  board : Vector (Vector Square 9) 9
deriving DecidableEq

/-- Model of `Square::is_valid` (lines 114-117): a square needs a solution
or candidate solutions. -/
def Square.is_valid (sq : Square) : Bool :=
  decide (sq.solution > 0) || decide (sq.num_possible > 0)

/-- Model of `State::sub_board_offset` (lines 107-110): truncating integer
division by 3. -/
def State.sub_board_offset (index : Nat) : Nat :=
  index / 3

/-- Reading the square at `board[r][c]`. -/
def State.getSq (s : State) (r c : Fin 9) : Square :=
  (s.board.get r).get c

/-- Writing the square at `board[r][c]`. -/
def State.setSq (s : State) (r c : Fin 9) (sq : Square) : State :=
  { s with board := s.board.set r ((s.board.get r).set c sq) }

/-- Model of `State::remove_possibility` (lines 93-105).  The source takes
the `i8` value `solution` with `1 <= solution <= 9` (asserted) and clears
flag `solution - 1`; here the candidate is the index `solIdx : Fin 9`
(value `solIdx + 1`).  Returns the updated state and whether the touched
square remains valid. -/
def State.remove_possibility (s : State) (row col : Fin 9) (solIdx : Fin 9) :
    State × Bool :=
  let peer_cell := s.getSq row col
  if peer_cell.possible.get solIdx then
    let peer_cell' : Square :=
      { peer_cell with
          num_possible := peer_cell.num_possible - 1
          possible := peer_cell.possible.set solIdx false }
    (s.setSq row col peer_cell', peer_cell'.is_valid)
  else
    (s, peer_cell.is_valid)

/-- Cells visited by the row-clearing loop of `propagate_solution`
(lines 64-69), in loop order (`j = 0..9`, target included). -/
def rowCells (target_row : Fin 9) : List (Fin 9 × Fin 9) :=
  (List.finRange 9).map fun j => (target_row, j)

/-- Cells visited by the column-clearing loop (lines 70-75), in loop order
(`i = 0..9`, target included). -/
def colCells (target_col : Fin 9) : List (Fin 9 × Fin 9) :=
  (List.finRange 9).map fun i => (i, target_col)

/-- Cells visited by the sub-board-clearing loop (lines 76-87), in loop
order (`i = 0..3` outer, `j = 0..3` inner, target included). -/
def blockCells (target_row target_col : Fin 9) : List (Fin 9 × Fin 9) :=
  (List.finRange 3).flatMap fun i =>
    (List.finRange 3).map fun j =>
      (⟨State.sub_board_offset target_row.val * 3 + i.val, by
          have h1 := target_row.isLt
          have h2 := i.isLt
          simp only [State.sub_board_offset]
          omega⟩,
       ⟨State.sub_board_offset target_col.val * 3 + j.val, by
          have h1 := target_col.isLt
          have h2 := j.isLt
          simp only [State.sub_board_offset]
          omega⟩)

/-- One clearing loop of `propagate_solution`: remove the candidate from
each listed cell in order, returning early (with `false`) as soon as a
touched cell reports invalidity, exactly as the source's
`if !self.remove_possibility(..) { return false; }`. -/
def State.removeFromCells (s : State) (cells : List (Fin 9 × Fin 9)) (solIdx : Fin 9) :
    State × Bool :=
  match cells with
  | [] => (s, true)
  | p :: rest =>
    match s.remove_possibility p.1 p.2 solIdx with
    | (s', true) => s'.removeFromCells rest solIdx
    | (s', false) => (s', false)

/-- Model of `State::propagate_solution` (lines 50-89).  The square at the
target is settled with value `solIdx + 1`, its candidate set is emptied,
`unsolved_squares` is decremented, and then the candidate is cleared
across the row, the column and the sub-board in that order, with the
source's early return on the first invalidated square.  The source's
assertions (`target_row < 9`, `target_col < 9`, `1 <= solution <= 9`) are
the `Fin 9` types; `unsolved_squares > 0` is a precondition stated in the
theorems that need it. -/
def State.propagate_solution (s : State) (target_row target_col : Fin 9) (solIdx : Fin 9) :
    State × Bool :=
  let s1 : State := { s with unsolved_squares := s.unsolved_squares - 1 }
  let s2 : State := s1.setSq target_row target_col
    { solution := (solIdx.val : Int) + 1
      num_possible := 0
      possible := Vector.replicate 9 false }
  match s2.removeFromCells (rowCells target_row) solIdx with
  | (s3, false) => (s3, false)
  | (s3, true) =>
    match s3.removeFromCells (colCells target_col) solIdx with
    | (s4, false) => (s4, false)
    | (s4, true) => s4.removeFromCells (blockCells target_row target_col) solIdx

/-- Helper for the termination measure and the bookkeeping invariants:
`setSq` does not change `unsolved_squares`. -/
theorem State.unsolved_setSq (s : State) (r c : Fin 9) (sq : Square) :
    (s.setSq r c sq).unsolved_squares = s.unsolved_squares := rfl

/-- Helper: `remove_possibility` does not change `unsolved_squares`. -/
theorem State.unsolved_remove_possibility (s : State) (r c i : Fin 9) :
    ((s.remove_possibility r c i).1).unsolved_squares = s.unsolved_squares := by
  simp only [State.remove_possibility]
  split <;> rfl

/-- Helper: a clearing loop does not change `unsolved_squares`. -/
theorem State.unsolved_removeFromCells (s : State) (cells : List (Fin 9 × Fin 9)) (i : Fin 9) :
    ((s.removeFromCells cells i).1).unsolved_squares = s.unsolved_squares := by
  induction cells generalizing s with
  | nil => rfl
  | cons p rest ih =>
    simp only [State.removeFromCells]
    rcases h : s.remove_possibility p.1 p.2 i with ⟨s', b⟩
    have hs' : s'.unsolved_squares = s.unsolved_squares := by
      have hh := State.unsolved_remove_possibility s p.1 p.2 i
      rw [h] at hh
      exact hh
    cases b with
    | true => rw [ih s', hs']
    | false => exact hs'

/-- Helper restating `State.unsolved_removeFromCells` on an equation. -/
theorem State.removeFromCells_unsolved_eq (s s' : State) (b : Bool)
    (cells : List (Fin 9 × Fin 9)) (i : Fin 9)
    (h : s.removeFromCells cells i = (s', b)) :
    s'.unsolved_squares = s.unsolved_squares := by
  have hh := State.unsolved_removeFromCells s cells i
  rw [h] at hh
  exact hh

/-- Helper: `propagate_solution` decrements `unsolved_squares` by exactly
one (on the early-return paths as well). -/
theorem State.unsolved_propagate_solution (s : State) (r c i : Fin 9) :
    ((s.propagate_solution r c i).1).unsolved_squares = s.unsolved_squares - 1 := by
  unfold State.propagate_solution
  dsimp only
  split
  next s3 heq =>
    exact State.removeFromCells_unsolved_eq _ _ _ _ _ heq
  next s3 heq =>
    have h3 : s3.unsolved_squares = s.unsolved_squares - 1 :=
      State.removeFromCells_unsolved_eq _ _ _ _ _ heq
    split
    next s4 heq2 =>
      have h4 : s4.unsolved_squares = s3.unsolved_squares :=
        State.removeFromCells_unsolved_eq _ _ _ _ _ heq2
      show s4.unsolved_squares = _
      omega
    next s4 heq2 =>
      have h4 : s4.unsolved_squares = s3.unsolved_squares :=
        State.removeFromCells_unsolved_eq _ _ _ _ _ heq2
      have h5 := State.unsolved_removeFromCells s4 (blockCells r c) i
      omega

/-- Result of the row-major scan loop of `parallel_solve` (lines 134-149):
either the first unsettled square is invalid (`return false`), or it is
the branch square handed to `parallel_solve_impl`, or the loop falls
through with every remaining square settled (the `assert!(false)` path). -/
inductive ScanResult where
  | deadEnd : ScanResult
  | branch : Fin 9 → Fin 9 → ScanResult
  | exhausted : ScanResult
deriving DecidableEq

/-- Model of the scan loop of `parallel_solve` (lines 134-149): skip
settled squares in row-major order from `(row, col)`; at the first
unsettled square return `deadEnd` if it is invalid and `branch` otherwise;
`exhausted` when the loop falls through. -/
def scanFrom (s : State) (row col : Nat) : ScanResult :=
  if hr : row < 9 then
    if hc : col < 9 then
      if 0 < (s.getSq ⟨row, hr⟩ ⟨col, hc⟩).solution then
        scanFrom s row (col + 1)
      else if (s.getSq ⟨row, hr⟩ ⟨col, hc⟩).is_valid then
        ScanResult.branch ⟨row, hr⟩ ⟨col, hc⟩
      else ScanResult.deadEnd
    else
      scanFrom s (row + 1) 0
  else
    ScanResult.exhausted
termination_by (9 - row) * 10 + (9 - col)
decreasing_by
  · omega
  · omega

/-- The process-wide coordination state: the `THREAD_QUOTA_IN_USE` atomic
counter (line 166, initialised to 1) and the `EXECUTION_CANCELLED` atomic
flag (line 128, initialised to `false`), threaded explicitly through the
model of the search. -/
structure GState where
  quota : Int
  cancelled : Bool
deriving DecidableEq

/-- Observable outcome of one `parallel_solve` call: `found` is `some b`
when the call returned `true` after printing board `b` (lines 150-155),
`g` the coordination state afterwards, `leaked` records that some spawned
worker's handle was dropped without being joined, `panicked` that the
`assert!(false)` at line 158 was reached, `spawned` the total number of
workers spawned anywhere in the call, and `localSpawned` the number
spawned by the outermost `parallel_solve_impl` loop of the call. -/
structure SolveOut where
  found : Option State
  g : GState
  leaked : Bool
  panicked : Bool
  spawned : Nat
  localSpawned : Nat
deriving DecidableEq

/-- Model of the join loop of `parallel_solve_impl` (lines 205-209): join
the spawned workers in order; as soon as one reports success, return
`true` at once — the remaining handles are dropped without being joined.
Each list entry is a worker's `(found, leaked, panicked)`. -/
def joinLoop (children : List (Option State × Bool × Bool)) (g : GState) : SolveOut :=
  match children with
  | [] => ⟨none, g, false, false, 0, 0⟩
  | (f, lk, pk) :: rest =>
    if f.isSome then
      ⟨f, g, lk || !rest.isEmpty, pk, 0, 0⟩
    else
      let out := joinLoop rest g
      ⟨out.found, g, lk || out.leaked, pk || out.panicked, 0, 0⟩

mutual

/-- Model of `parallel_solve` (lines 126-160): check the cancellation
flag, then either report the finished board (setting the flag), scan for
the next unsettled square, or fall through to `assert!(false)`
(`panicked := true`). -/
def parallel_solve (s : State) (row col : Nat) (max_threads : Int) (g : GState) : SolveOut :=
  if g.cancelled then
    ⟨none, g, false, false, 0, 0⟩
  else if hu : 0 < s.unsolved_squares then
    match scanFrom s row col with
    | ScanResult.deadEnd => ⟨none, g, false, false, 0, 0⟩
    | ScanResult.branch r c => parallel_solve_impl s r c max_threads g hu
    | ScanResult.exhausted => ⟨none, g, false, true, 0, 0⟩
  else
    ⟨some s, { g with cancelled := true }, false, false, 0, 0⟩
termination_by s.unsolved_squares.toNat * 100 + 20
decreasing_by
  all_goals simp_wf

/-- Model of `parallel_solve_impl` (lines 164-212): reserve thread quota
for one worker per candidate beyond the current one (`num_possible - 1`),
release the reservation that does not fit under `max_threads`, then run
the candidate loop.  `hu` is the guard under which the source reaches
this call (`state.unsolved_squares > 0` at line 133). -/
def parallel_solve_impl (s : State) (row col : Fin 9) (max_threads : Int) (g : GState)
    (hu : 0 < s.unsolved_squares) : SolveOut :=
  let extra_threads_to_request : Int := (s.getSq row col).num_possible - 1
  let pre := g.quota
  let g1 : GState := { g with quota := g.quota + extra_threads_to_request }
  let thread_quota_available := max (max_threads - pre) 0
  let extra_threads_available := min thread_quota_available extra_threads_to_request
  let overflow := max (extra_threads_to_request - extra_threads_available) 0
  let g2 : GState := if 0 < overflow then { g1 with quota := g1.quota - overflow } else g1
  solveCands s row col max_threads g2 hu 0 extra_threads_available []
termination_by s.unsolved_squares.toNat * 100 + 10
decreasing_by
  all_goals simp_wf

/-- Model of the candidate loop of `parallel_solve_impl` (lines 179-211):
for each still-possible candidate, clone the state and settle the
candidate (the returned validity is ignored, line 187); while
`extra_threads_available > 0` the recursive search runs as a spawned
worker (modelled by running it at the spawn point, then applying the
worker's trailing quota decrement, line 194) whose result is collected
for the join loop; otherwise it runs sequentially, returning `true` at
once on success — without joining the already-spawned workers. -/
def solveCands (s : State) (row col : Fin 9) (max_threads : Int) (g : GState)
    (hu : 0 < s.unsolved_squares) (sln_idx : Nat) (extra_threads_available : Int)
    (children : List (Option State × Bool × Bool)) : SolveOut :=
  if h9 : sln_idx < 9 then
    if (s.getSq row col).possible.get ⟨sln_idx, h9⟩ then
      let state_copy := (s.propagate_solution row col ⟨sln_idx, h9⟩).1
      if 0 < extra_threads_available then
        let child := parallel_solve state_copy row.val (col.val + 1) max_threads g
        let g' : GState := { child.g with quota := child.g.quota - 1 }
        let rest := solveCands s row col max_threads g' hu (sln_idx + 1)
          (extra_threads_available - 1) (children ++ [(child.found, child.leaked, child.panicked)])
        { rest with
            spawned := child.spawned + 1 + rest.spawned
            localSpawned := rest.localSpawned + 1 }
      else
        let out := parallel_solve state_copy row.val (col.val + 1) max_threads g
        if out.found.isSome then
          { out with
              leaked := out.leaked || !children.isEmpty || children.any fun t => t.2.1
              localSpawned := 0 }
        else
          let rest := solveCands s row col max_threads out.g hu (sln_idx + 1)
            extra_threads_available children
          { rest with
              spawned := out.spawned + rest.spawned
              leaked := out.leaked || rest.leaked
              panicked := out.panicked || rest.panicked }
    else
      solveCands s row col max_threads g hu (sln_idx + 1) extra_threads_available children
  else
    joinLoop children g
termination_by s.unsolved_squares.toNat * 100 + (9 - sln_idx)
decreasing_by
  all_goals simp_wf
  all_goals
    first
    | omega
    | (have h := State.unsolved_propagate_solution s row col ⟨sln_idx, h9⟩
       omega)

end

/-- The freshly provisioned state of `main` (lines 15-22): 81 unsolved
squares, every square unsettled with all nine candidates. -/
def initState : State :=
  { unsolved_squares := 81
    board := Vector.replicate 9 (Vector.replicate 9
      { solution := 0, num_possible := 9, possible := Vector.replicate 9 true }) }

/-- Row index `i` of the square fed to `propagate_solution` for input
byte `idx` (`input_bytes[i * 9 + j]`, lines 229-233). -/
def posR (idx : Nat) (h : idx < 81) : Fin 9 := ⟨idx / 9, by omega⟩

/-- Column index `j` of the square fed to `propagate_solution` for input
byte `idx` (lines 229-233). -/
def posC (idx : Nat) (_h : idx < 81) : Fin 9 := ⟨idx % 9, by omega⟩

/-- Model of the given-propagation loop of `populate_board_using_input`
(lines 228-236).  The input is the parsed row-major list of givens
(`some v` for an ASCII digit giving candidate index `v`, `none` for any
other character); reading the line, and the length assertion, are the
external input wrapper.  The `Bool` result is `false` exactly when the
`assert!(state.propagate_solution(..))` at line 233 fires, i.e. the
process aborts. -/
def populateGivens (s : State) (givens : List (Option (Fin 9))) (idx : Nat) : State × Bool :=
  match givens with
  | [] => (s, true)
  | none :: rest => populateGivens s rest (idx + 1)
  | some v :: rest =>
    if h : idx < 81 then
      match s.propagate_solution (posR idx h) (posC idx h) v with
      | (s', true) => populateGivens s' rest (idx + 1)
      | (s', false) => (s', false)
    else
      (s, false)

/-- Model of `populate_board_using_input` (lines 218-237) applied to the
fresh board of `main`. -/
def populate_board_using_input (givens : List (Option (Fin 9))) : State × Bool :=
  populateGivens initState givens 0

/-- Characterisation of `getSq` after `setSq`. -/
theorem State.getSq_setSq (s : State) (r c r' c' : Fin 9) (sq : Square) :
    (s.setSq r c sq).getSq r' c' = if r' = r ∧ c' = c then sq else s.getSq r' c' := by
  unfold State.getSq State.setSq
  by_cases hr : r' = r
  · subst hr
    rw [Vector.get_set_same]
    by_cases hc : c' = c
    · subst hc
      rw [Vector.get_set_same]
      simp
    · rw [Vector.get_set_of_ne (Ne.symm hc)]
      simp [hc]
  · rw [Vector.get_set_of_ne (Ne.symm hr)]
    simp [hr]

/-- Characterisation of the board after `remove_possibility`: only the
touched square changes, and it changes only when the candidate flag was
set. -/
theorem State.getSq_remove_possibility (s : State) (r c i r' c' : Fin 9) :
    ((s.remove_possibility r c i).1).getSq r' c' =
      if r' = r ∧ c' = c then
        (if (s.getSq r c).possible.get i then
          { s.getSq r c with
              num_possible := (s.getSq r c).num_possible - 1
              possible := (s.getSq r c).possible.set i false }
         else s.getSq r c)
      else s.getSq r' c' := by
  unfold State.remove_possibility
  dsimp only
  split
  next h =>
    rw [State.getSq_setSq]
  next h =>
    by_cases hrc : r' = r ∧ c' = c
    · obtain ⟨h1, h2⟩ := hrc
      subst h1
      subst h2
      simp
    · simp [hrc]

/-- The `Bool` returned by `remove_possibility` is the validity of the
touched square in the resulting state. -/
theorem State.remove_possibility_snd (s : State) (r c i : Fin 9) :
    (s.remove_possibility r c i).2 = (((s.remove_possibility r c i).1).getSq r c).is_valid := by
  unfold State.remove_possibility
  dsimp only
  split
  next h =>
    rw [State.getSq_setSq]
    simp
  next h =>
    rfl

/-- When the candidate flag is already clear, `remove_possibility` leaves
the state unchanged. -/
theorem State.remove_possibility_of_flag_false (s : State) (r c i : Fin 9)
    (h : (s.getSq r c).possible.get i = false) :
    (s.remove_possibility r c i).1 = s := by
  unfold State.remove_possibility
  dsimp only
  rw [h]
  rfl

/-- A clearing loop over an appended list runs the first list and, if it
survives, continues with the second. -/
theorem State.removeFromCells_append_true (s s' : State) (a b : List (Fin 9 × Fin 9))
    (i : Fin 9) (h : s.removeFromCells a i = (s', true)) :
    s.removeFromCells (a ++ b) i = s'.removeFromCells b i := by
  induction a generalizing s with
  | nil =>
    have hs : s' = s := by
      have := congrArg Prod.fst h
      exact this.symm
    rw [hs]
    rfl
  | cons p rest ih =>
    rw [List.cons_append]
    rw [State.removeFromCells] at h ⊢
    rcases hp : s.remove_possibility p.1 p.2 i with ⟨t, bt⟩
    rw [hp] at h
    cases bt with
    | true => exact ih t h
    | false =>
      exact absurd (congrArg Prod.snd h) (by simp)

/-- A clearing loop over an appended list stops inside the first list when
that list reports invalidity. -/
theorem State.removeFromCells_append_false (s s' : State) (a b : List (Fin 9 × Fin 9))
    (i : Fin 9) (h : s.removeFromCells a i = (s', false)) :
    s.removeFromCells (a ++ b) i = (s', false) := by
  induction a generalizing s with
  | nil =>
    simp [State.removeFromCells] at h
  | cons p rest ih =>
    rw [List.cons_append]
    rw [State.removeFromCells] at h ⊢
    rcases hp : s.remove_possibility p.1 p.2 i with ⟨t, bt⟩
    rw [hp] at h
    cases bt with
    | true => exact ih t h
    | false => exact h

/-- The state after the target-settling writes of `propagate_solution`
(lines 56-63): solution applied, candidate set emptied, `unsolved_squares`
decremented. -/
def State.writeTarget (s : State) (r c i : Fin 9) : State :=
  State.setSq { s with unsolved_squares := s.unsolved_squares - 1 } r c
    { solution := (i.val : Int) + 1
      num_possible := 0
      possible := Vector.replicate 9 false }

/-- The three clearing loops of `propagate_solution` behave as one
clearing loop over the concatenated cell lists. -/
theorem State.propagate_solution_eq (s : State) (r c i : Fin 9) :
    s.propagate_solution r c i =
      (s.writeTarget r c i).removeFromCells (rowCells r ++ colCells c ++ blockCells r c) i := by
  unfold State.propagate_solution State.writeTarget
  dsimp only
  split
  next s3 heq =>
    have h1 := State.removeFromCells_append_false _ _ _ (colCells c) _ heq
    have h2 := State.removeFromCells_append_false _ _ _ (blockCells r c) _ h1
    rw [h2]
  next s3 heq =>
    have h1 := State.removeFromCells_append_true _ _ _ (colCells c) _ heq
    split
    next s4 heq2 =>
      have h2 := State.removeFromCells_append_false _ _ _ (blockCells r c) _ (h1.trans heq2)
      rw [h2]
    next s4 heq2 =>
      have h2 := State.removeFromCells_append_true _ _ _ (blockCells r c) _ (h1.trans heq2)
      rw [h2]

/-- Validity of a square, unfolded. -/
theorem Square.is_valid_iff (sq : Square) :
    sq.is_valid = true ↔ (0 < sq.solution ∨ 0 < sq.num_possible) := by
  simp [Square.is_valid]

/-- Invalidity of a square, unfolded. -/
theorem Square.is_valid_eq_false_iff (sq : Square) :
    sq.is_valid = false ↔ (sq.solution ≤ 0 ∧ sq.num_possible ≤ 0) := by
  simp [Square.is_valid]

/-- Per-square facts about one `remove_possibility` step: the solution
field is unchanged, flags other than the removed candidate are unchanged,
the removed candidate's flag never turns on, and `num_possible` never
grows. -/
theorem State.remove_possibility_cellFacts (s : State) (p1 p2 i r' c' : Fin 9) :
    ((((s.remove_possibility p1 p2 i).1).getSq r' c').solution = (s.getSq r' c').solution) ∧
    (∀ j : Fin 9, j ≠ i →
      (((s.remove_possibility p1 p2 i).1).getSq r' c').possible.get j
        = (s.getSq r' c').possible.get j) ∧
    ((((s.remove_possibility p1 p2 i).1).getSq r' c').possible.get i = true →
      (s.getSq r' c').possible.get i = true) ∧
    ((((s.remove_possibility p1 p2 i).1).getSq r' c').num_possible
      ≤ (s.getSq r' c').num_possible) := by
  have hh := State.getSq_remove_possibility s p1 p2 i r' c'
  by_cases hA : r' = p1 ∧ c' = p2
  · obtain ⟨e1, e2⟩ := hA
    subst e1
    subst e2
    rw [hh, if_pos ⟨rfl, rfl⟩]
    by_cases hf : (s.getSq r' c').possible.get i = true
    · rw [if_pos hf]
      refine ⟨rfl, ?_, ?_, ?_⟩
      · intro j hj
        exact Vector.get_set_of_ne (Ne.symm hj) false
      · intro habs
        rw [Vector.get_set_same] at habs
        exact absurd habs (by simp)
      · show (s.getSq r' c').num_possible - 1 ≤ (s.getSq r' c').num_possible
        omega
    · rw [if_neg hf]
      exact ⟨rfl, fun j _ => rfl, fun h => h, le_refl _⟩
  · rw [hh, if_neg hA]
    exact ⟨rfl, fun j _ => rfl, fun h => h, le_refl _⟩

/-- Per-square facts about a whole clearing loop (composition of
`State.remove_possibility_cellFacts` along the list). -/
theorem State.removeFromCells_cellFacts (s : State) (cells : List (Fin 9 × Fin 9))
    (i r' c' : Fin 9) :
    ((((s.removeFromCells cells i).1).getSq r' c').solution = (s.getSq r' c').solution) ∧
    (∀ j : Fin 9, j ≠ i →
      (((s.removeFromCells cells i).1).getSq r' c').possible.get j
        = (s.getSq r' c').possible.get j) ∧
    ((((s.removeFromCells cells i).1).getSq r' c').possible.get i = true →
      (s.getSq r' c').possible.get i = true) ∧
    ((((s.removeFromCells cells i).1).getSq r' c').num_possible
      ≤ (s.getSq r' c').num_possible) := by
  induction cells generalizing s with
  | nil => exact ⟨rfl, fun j _ => rfl, fun h => h, le_refl _⟩
  | cons p rest ih =>
    obtain ⟨p1, p2⟩ := p
    rw [State.removeFromCells]
    rcases hp : s.remove_possibility p1 p2 i with ⟨t, bt⟩
    have hstep := State.remove_possibility_cellFacts s p1 p2 i r' c'
    rw [hp] at hstep
    obtain ⟨hs1, hs2, hs3, hs4⟩ := hstep
    cases bt with
    | true =>
      obtain ⟨hr1, hr2, hr3, hr4⟩ := ih t
      exact ⟨hr1.trans hs1,
        fun j hj => (hr2 j hj).trans (hs2 j hj),
        fun h => hs3 (hr3 h),
        le_trans hr4 hs4⟩
    | false => exact ⟨hs1, hs2, hs3, hs4⟩

/-- Squares not in the list are untouched by a clearing loop. -/
theorem State.getSq_removeFromCells_not_mem (s : State) (cells : List (Fin 9 × Fin 9))
    (i r' c' : Fin 9) (hnm : (r', c') ∉ cells) :
    ((s.removeFromCells cells i).1).getSq r' c' = s.getSq r' c' := by
  induction cells generalizing s with
  | nil => rfl
  | cons p rest ih =>
    obtain ⟨p1, p2⟩ := p
    rw [State.removeFromCells]
    rcases hp : s.remove_possibility p1 p2 i with ⟨t, bt⟩
    have hne : ¬(r' = p1 ∧ c' = p2) := by
      intro hA
      obtain ⟨e1, e2⟩ := hA
      subst e1
      subst e2
      exact hnm (List.mem_cons_self _ _)
    have hcell : t.getSq r' c' = s.getSq r' c' := by
      have hh := State.getSq_remove_possibility s p1 p2 i r' c'
      rw [hp] at hh
      rw [hh, if_neg hne]
    have hrest : (r', c') ∉ rest := fun hm => hnm (List.mem_cons_of_mem _ hm)
    cases bt with
    | true => rw [ih t hrest, hcell]
    | false => exact hcell

/-- A square whose removed-candidate flag is already clear is untouched by
a clearing loop. -/
theorem State.removeFromCells_flagFalse_cell (s : State) (cells : List (Fin 9 × Fin 9))
    (i r' c' : Fin 9) (hf : (s.getSq r' c').possible.get i = false) :
    ((s.removeFromCells cells i).1).getSq r' c' = s.getSq r' c' := by
  induction cells generalizing s with
  | nil => rfl
  | cons p rest ih =>
    obtain ⟨p1, p2⟩ := p
    rw [State.removeFromCells]
    rcases hp : s.remove_possibility p1 p2 i with ⟨t, bt⟩
    have hcell : t.getSq r' c' = s.getSq r' c' := by
      have hh := State.getSq_remove_possibility s p1 p2 i r' c'
      rw [hp] at hh
      by_cases hA : r' = p1 ∧ c' = p2
      · obtain ⟨e1, e2⟩ := hA
        subst e1
        subst e2
        rw [hh, if_pos ⟨rfl, rfl⟩, hf]
        rfl
      · rw [hh, if_neg hA]
    cases bt with
    | true =>
      rw [ih t (by rw [hcell]; exact hf), hcell]
    | false => exact hcell

/-- A successful clearing loop clears the candidate flag of every listed
square. -/
theorem State.removeFromCells_clears (s s' : State) (cells : List (Fin 9 × Fin 9))
    (i : Fin 9) (h : s.removeFromCells cells i = (s', true)) :
    ∀ p ∈ cells, ((s'.getSq p.1 p.2).possible.get i) = false := by
  induction cells generalizing s with
  | nil => intro p hp; exact absurd hp (List.not_mem_nil _)
  | cons q rest ih =>
    obtain ⟨q1, q2⟩ := q
    rw [State.removeFromCells] at h
    rcases hq : s.remove_possibility q1 q2 i with ⟨t, bt⟩
    rw [hq] at h
    cases bt with
    | false => exact absurd (congrArg Prod.snd h) (by simp)
    | true =>
      have h' : t.removeFromCells rest i = (s', true) := h
      intro p hp
      rcases List.mem_cons.mp hp with hph | hpr
      · have hcleared : (t.getSq q1 q2).possible.get i = false := by
          have hh := State.getSq_remove_possibility s q1 q2 i q1 q2
          rw [hq] at hh
          rw [hh, if_pos ⟨rfl, rfl⟩]
          by_cases hf : (s.getSq q1 q2).possible.get i = true
          · rw [if_pos hf]
            exact Vector.get_set_same _ _ _
          · rw [if_neg hf]
            exact Bool.not_eq_true _ ▸ hf
      /- the flag stays clear through the rest of the loop -/
        have hmono := (State.removeFromCells_cellFacts t rest i q1 q2).2.2.1
        rw [h'] at hmono
        subst hph
        cases hfinal : (s'.getSq q1 q2).possible.get i with
        | false => rfl
        | true => rw [hmono hfinal] at hcleared; exact absurd hcleared (by simp)
      · exact ih t h p hpr

/-- A successful clearing loop leaves every listed square valid. -/
theorem State.removeFromCells_valid (s s' : State) (cells : List (Fin 9 × Fin 9))
    (i : Fin 9) (h : s.removeFromCells cells i = (s', true)) :
    ∀ p ∈ cells, ((s'.getSq p.1 p.2).is_valid) = true := by
  induction cells generalizing s with
  | nil => intro p hp; exact absurd hp (List.not_mem_nil _)
  | cons q rest ih =>
    obtain ⟨q1, q2⟩ := q
    rw [State.removeFromCells] at h
    rcases hq : s.remove_possibility q1 q2 i with ⟨t, bt⟩
    rw [hq] at h
    cases bt with
    | false => exact absurd (congrArg Prod.snd h) (by simp)
    | true =>
      have h' : t.removeFromCells rest i = (s', true) := h
      intro p hp
      rcases List.mem_cons.mp hp with hph | hpr
      · subst hph
        by_cases hmem : ((q1, q2) : Fin 9 × Fin 9) ∈ rest
        · exact ih t h' _ hmem
        · have huntouched := State.getSq_removeFromCells_not_mem t rest i q1 q2 hmem
          rw [h'] at huntouched
          have hvalid : (t.getSq q1 q2).is_valid = true := by
            have hsnd := State.remove_possibility_snd s q1 q2 i
            rw [hq] at hsnd
            exact hsnd.symm
          rw [huntouched]
          exact hvalid
      · exact ih t h p hpr

/-- A failed clearing loop pins an invalid listed square in the returned
state. -/
theorem State.removeFromCells_invalid (s s' : State) (cells : List (Fin 9 × Fin 9))
    (i : Fin 9) (h : s.removeFromCells cells i = (s', false)) :
    ∃ p ∈ cells, ((s'.getSq p.1 p.2).is_valid) = false := by
  induction cells generalizing s with
  | nil => exact absurd (congrArg Prod.snd h) (by simp [State.removeFromCells])
  | cons q rest ih =>
    obtain ⟨q1, q2⟩ := q
    rw [State.removeFromCells] at h
    rcases hq : s.remove_possibility q1 q2 i with ⟨t, bt⟩
    rw [hq] at h
    cases bt with
    | true =>
      obtain ⟨p, hpm, hpv⟩ := ih t h
      exact ⟨p, List.mem_cons_of_mem _ hpm, hpv⟩
    | false =>
      have hs' : s' = t := (congrArg Prod.fst h).symm
      have hsnd := State.remove_possibility_snd s q1 q2 i
      rw [hq] at hsnd
      refine ⟨(q1, q2), List.mem_cons_self _ _, ?_⟩
      rw [hs']
      exact hsnd.symm

/-- Reading the board after the target-settling writes. -/
theorem State.getSq_writeTarget (s : State) (r c i r' c' : Fin 9) :
    ((s.writeTarget r c i).getSq r' c') =
      if r' = r ∧ c' = c then
        { solution := (i.val : Int) + 1
          num_possible := 0
          possible := Vector.replicate 9 false }
      else s.getSq r' c' := by
  unfold State.writeTarget
  rw [State.getSq_setSq]
  rfl

/-- The target square after `propagate_solution`: settled with value
`solIdx + 1` and an empty candidate set (on early-return paths too,
since the clearing loops cannot touch a square whose flag is already
clear). -/
theorem State.propagate_target (s : State) (r c i : Fin 9) :
    ((s.propagate_solution r c i).1).getSq r c =
      { solution := (i.val : Int) + 1
        num_possible := 0
        possible := Vector.replicate 9 false } := by
  rw [State.propagate_solution_eq]
  have hf : ((s.writeTarget r c i).getSq r c).possible.get i = false := by
    rw [State.getSq_writeTarget, if_pos ⟨rfl, rfl⟩]
    exact Vector.get_replicate false i
  rw [State.removeFromCells_flagFalse_cell _ _ _ _ _ hf]
  rw [State.getSq_writeTarget, if_pos ⟨rfl, rfl⟩]

/-- Facts about non-target squares across a whole `propagate_solution`
call: solution unchanged, flags other than the settled candidate
unchanged, the settled candidate's flag never turns on, `num_possible`
never grows. -/
theorem State.propagate_cellFacts (s : State) (r c i r' c' : Fin 9)
    (h : ¬(r' = r ∧ c' = c)) :
    ((((s.propagate_solution r c i).1).getSq r' c').solution = (s.getSq r' c').solution) ∧
    (∀ j : Fin 9, j ≠ i →
      (((s.propagate_solution r c i).1).getSq r' c').possible.get j
        = (s.getSq r' c').possible.get j) ∧
    ((((s.propagate_solution r c i).1).getSq r' c').possible.get i = true →
      (s.getSq r' c').possible.get i = true) ∧
    ((((s.propagate_solution r c i).1).getSq r' c').num_possible
      ≤ (s.getSq r' c').num_possible) := by
  rw [State.propagate_solution_eq]
  have hw : (s.writeTarget r c i).getSq r' c' = s.getSq r' c' := by
    rw [State.getSq_writeTarget, if_neg h]
  obtain ⟨h1, h2, h3, h4⟩ :=
    State.removeFromCells_cellFacts (s.writeTarget r c i)
      (rowCells r ++ colCells c ++ blockCells r c) i r' c'
  rw [hw] at h1 h2 h3 h4
  exact ⟨h1, h2, h3, h4⟩

/-- When `propagate_solution` reports validity, the settled candidate has
been cleared from every square the three loops visit. -/
theorem State.propagate_true_clears (s s' : State) (r c i : Fin 9)
    (h : s.propagate_solution r c i = (s', true)) :
    ∀ p ∈ rowCells r ++ colCells c ++ blockCells r c,
      ((s'.getSq p.1 p.2).possible.get i) = false := by
  rw [State.propagate_solution_eq] at h
  exact State.removeFromCells_clears _ _ _ _ h

/-- When `propagate_solution` reports validity, every square the three
loops visit is valid afterwards. -/
theorem State.propagate_true_valid (s s' : State) (r c i : Fin 9)
    (h : s.propagate_solution r c i = (s', true)) :
    ∀ p ∈ rowCells r ++ colCells c ++ blockCells r c,
      ((s'.getSq p.1 p.2).is_valid) = true := by
  rw [State.propagate_solution_eq] at h
  exact State.removeFromCells_valid _ _ _ _ h

/-- When `propagate_solution` reports invalidity, some square the loops
visit is invalid in the returned state. -/
theorem State.propagate_false_invalid (s s' : State) (r c i : Fin 9)
    (h : s.propagate_solution r c i = (s', false)) :
    ∃ p ∈ rowCells r ++ colCells c ++ blockCells r c,
      ((s'.getSq p.1 p.2).is_valid) = false := by
  rw [State.propagate_solution_eq] at h
  exact State.removeFromCells_invalid _ _ _ _ h

/-- Peers in the spec's sense (glossary): distinct squares sharing a row,
a column, or a 3 x 3 sub-board. -/
def isPeer (r c r' c' : Fin 9) : Prop :=
  ¬(r' = r ∧ c' = c) ∧
    (r' = r ∨ c' = c ∨
      (State.sub_board_offset r'.val = State.sub_board_offset r.val ∧
       State.sub_board_offset c'.val = State.sub_board_offset c.val))

instance isPeer.decidable (r c r' c' : Fin 9) : Decidable (isPeer r c r' c') := by
  unfold isPeer
  infer_instance

/-- Peerhood is symmetric. -/
theorem isPeer_symm (r c r' c' : Fin 9) (h : isPeer r c r' c') : isPeer r' c' r c := by
  obtain ⟨h1, h2⟩ := h
  refine ⟨?_, ?_⟩
  · intro he
    exact h1 ⟨he.1.symm, he.2.symm⟩
  · rcases h2 with h | h | ⟨h3, h4⟩
    · exact Or.inl h.symm
    · exact Or.inr (Or.inl h.symm)
    · exact Or.inr (Or.inr ⟨h3.symm, h4.symm⟩)

/-- Membership in the row-clearing list. -/
theorem mem_rowCells_iff (r : Fin 9) (p : Fin 9 × Fin 9) :
    p ∈ rowCells r ↔ p.1 = r := by
  unfold rowCells
  constructor
  · intro h
    obtain ⟨j, _, he⟩ := List.mem_map.mp h
    rw [← he]
  · intro h
    refine List.mem_map.mpr ⟨p.2, List.mem_finRange _, ?_⟩
    obtain ⟨p1, p2⟩ := p
    rw [show p1 = r from h]

/-- Membership in the column-clearing list. -/
theorem mem_colCells_iff (c : Fin 9) (p : Fin 9 × Fin 9) :
    p ∈ colCells c ↔ p.2 = c := by
  unfold colCells
  constructor
  · intro h
    obtain ⟨j, _, he⟩ := List.mem_map.mp h
    rw [← he]
  · intro h
    refine List.mem_map.mpr ⟨p.1, List.mem_finRange _, ?_⟩
    obtain ⟨p1, p2⟩ := p
    rw [show p2 = c from h]

/-- Membership in the sub-board-clearing list. -/
theorem mem_blockCells_iff (r c : Fin 9) (p : Fin 9 × Fin 9) :
    p ∈ blockCells r c ↔
      (State.sub_board_offset p.1.val = State.sub_board_offset r.val ∧
       State.sub_board_offset p.2.val = State.sub_board_offset c.val) := by
  unfold blockCells State.sub_board_offset
  obtain ⟨p1, p2⟩ := p
  constructor
  · intro h
    obtain ⟨i, _, h2⟩ := List.mem_flatMap.mp h
    obtain ⟨j, _, he⟩ := List.mem_map.mp h2
    injection he with he1 he2
    have hv1 : r.val / 3 * 3 + i.val = p1.val := congrArg Fin.val he1
    have hv2 : c.val / 3 * 3 + j.val = p2.val := congrArg Fin.val he2
    have hi := i.isLt
    have hj := j.isLt
    constructor
    · show p1.val / 3 = r.val / 3
      omega
    · show p2.val / 3 = c.val / 3
      omega
  · intro hc
    obtain ⟨h1, h2⟩ := hc
    dsimp only at h1 h2
    have hp1 := p1.isLt
    have hp2 := p2.isLt
    refine List.mem_flatMap.mpr ⟨⟨p1.val % 3, by omega⟩, List.mem_finRange _, ?_⟩
    refine List.mem_map.mpr ⟨⟨p2.val % 3, by omega⟩, List.mem_finRange _, ?_⟩
    have he1 : (⟨r.val / 3 * 3 + p1.val % 3, by omega⟩ : Fin 9) = p1 := by
      apply Fin.ext
      show r.val / 3 * 3 + p1.val % 3 = p1.val
      omega
    have he2 : (⟨c.val / 3 * 3 + p2.val % 3, by omega⟩ : Fin 9) = p2 := by
      apply Fin.ext
      show c.val / 3 * 3 + p2.val % 3 = p2.val
      omega
    rw [he1, he2]

/-- The squares visited by the three clearing loops are exactly the target
itself and its peers. -/
theorem mem_touched_iff (r c : Fin 9) (p : Fin 9 × Fin 9) :
    p ∈ rowCells r ++ colCells c ++ blockCells r c ↔
      (p = (r, c) ∨ isPeer r c p.1 p.2) := by
  rw [List.mem_append, List.mem_append, mem_rowCells_iff, mem_colCells_iff, mem_blockCells_iff]
  unfold isPeer
  obtain ⟨p1, p2⟩ := p
  simp only [Prod.mk.injEq]
  constructor
  · intro h
    by_cases he : p1 = r ∧ p2 = c
    · exact Or.inl he
    · refine Or.inr ⟨he, ?_⟩
      tauto
  · intro h
    rcases h with ⟨he1, he2⟩ | ⟨_, ho⟩
    · subst he1
      exact Or.inl (Or.inl rfl)
    · tauto

/-- Number of set candidate flags of a square (the quantity the source
tracks in `num_possible`). -/
def Square.flagCount (sq : Square) : Nat :=
  (Finset.univ.filter fun j : Fin 9 => sq.possible.get j = true).card

/-- Number of unsettled squares on the board (the quantity the source
tracks in `unsolved_squares`). -/
def State.unsettledCount (s : State) : Nat :=
  (Finset.univ.filter fun p : Fin 9 × Fin 9 => ¬0 < (s.getSq p.1 p.2).solution).card

/-- Settled squares carry an empty candidate set (spec section 8, first
invariant). -/
def State.SettledEmpty (s : State) : Prop :=
  ∀ r c : Fin 9, 0 < (s.getSq r c).solution →
    (s.getSq r c).num_possible = 0 ∧ ∀ j : Fin 9, (s.getSq r c).possible.get j = false

/-- `unsolved_squares` counts the unsettled squares (spec section 8,
second invariant). -/
def State.CountOk (s : State) : Prop :=
  s.unsolved_squares = (State.unsettledCount s : Int)

/-- `num_possible` counts the set flags of each square. -/
def State.FlagsCounted (s : State) : Prop :=
  ∀ r c : Fin 9, (s.getSq r c).num_possible = ((s.getSq r c).flagCount : Int)

/-- No two settled peers carry the same value. -/
def State.NoConflict (s : State) : Prop :=
  ∀ r c r' c' : Fin 9, isPeer r c r' c' →
    0 < (s.getSq r c).solution → 0 < (s.getSq r' c').solution →
    (s.getSq r c).solution ≠ (s.getSq r' c').solution

/-- The value of every settled square has been cleared from the candidate
set of each of its peers. -/
def State.Cleared (s : State) : Prop :=
  ∀ r c r' c' i : Fin 9, isPeer r c r' c' →
    (s.getSq r c).solution = (i.val : Int) + 1 →
    (s.getSq r' c').possible.get i = false

/-- Settled values lie in 1..9 (written as `i + 1` for a candidate index
`i : Fin 9`). -/
def State.SolRange (s : State) : Prop :=
  ∀ r c : Fin 9, (s.getSq r c).solution = 0 ∨
    ∃ i : Fin 9, (s.getSq r c).solution = (i.val : Int) + 1

/-- The conjunction of all board invariants maintained by the search. -/
def State.Inv (s : State) : Prop :=
  State.SettledEmpty s ∧ State.CountOk s ∧ State.FlagsCounted s ∧
    State.NoConflict s ∧ State.Cleared s ∧ State.SolRange s

/-- Clearing a set flag lowers `flagCount` by one. -/
theorem Square.flagCount_set_false (sq : Square) (i : Fin 9)
    (hf : sq.possible.get i = true) :
    (Finset.univ.filter fun j : Fin 9 => (sq.possible.set i false).get j = true).card
      = (Finset.univ.filter fun j : Fin 9 => sq.possible.get j = true).card - 1 := by
  have hset : (Finset.univ.filter fun j : Fin 9 => (sq.possible.set i false).get j = true)
      = (Finset.univ.filter fun j : Fin 9 => sq.possible.get j = true).erase i := by
    ext j
    simp only [Finset.mem_erase, Finset.mem_filter, Finset.mem_univ, true_and]
    by_cases hj : j = i
    · subst hj
      rw [Vector.get_set_same]
      simp
    · rw [Vector.get_set_of_ne (Ne.symm hj)]
      simp [hj]
  rw [hset]
  exact Finset.card_erase_of_mem (by simp [hf])

/-- A square with a set flag has a positive `flagCount`. -/
theorem Square.flagCount_pos (sq : Square) (i : Fin 9) (hf : sq.possible.get i = true) :
    0 < sq.flagCount := by
  unfold Square.flagCount
  exact Finset.card_pos.mpr ⟨i, by simp [hf]⟩

/-- The all-clear flag vector has `flagCount` zero. -/
theorem Square.flagCount_replicate_false (sol np : Int) :
    Square.flagCount { solution := sol, num_possible := np, possible := Vector.replicate 9 false }
      = 0 := by
  unfold Square.flagCount
  rw [Finset.card_eq_zero, Finset.filter_eq_empty_iff]
  intro j _
  rw [Vector.get_replicate]
  simp

/-- One `remove_possibility` step keeps `num_possible` equal to the flag
count of every square. -/
theorem State.FlagsCounted_remove_possibility (s : State) (p1 p2 i : Fin 9)
    (h : State.FlagsCounted s) :
    State.FlagsCounted ((s.remove_possibility p1 p2 i).1) := by
  intro r c
  have hh := State.getSq_remove_possibility s p1 p2 i r c
  by_cases hA : r = p1 ∧ c = p2
  · obtain ⟨e1, e2⟩ := hA
    subst e1
    subst e2
    rw [hh, if_pos ⟨rfl, rfl⟩]
    by_cases hf : (s.getSq r c).possible.get i = true
    · rw [if_pos hf]
      have hcnt := Square.flagCount_set_false (s.getSq r c) i hf
      have hpos := Square.flagCount_pos (s.getSq r c) i hf
      have hold := h r c
      unfold Square.flagCount at hcnt hpos hold ⊢
      dsimp only at hcnt ⊢
      rw [hcnt]
      push_cast [Nat.cast_sub (by omega : 1 ≤ (Finset.univ.filter fun j : Fin 9 => (s.getSq r c).possible.get j = true).card)]
      omega
    · rw [if_neg hf]
      exact h r c
  · rw [hh, if_neg hA]
    exact h r c

/-- A whole clearing loop keeps `num_possible` equal to the flag count of
every square. -/
theorem State.FlagsCounted_removeFromCells (s : State) (cells : List (Fin 9 × Fin 9))
    (i : Fin 9) (h : State.FlagsCounted s) :
    State.FlagsCounted ((s.removeFromCells cells i).1) := by
  induction cells generalizing s with
  | nil => exact h
  | cons p rest ih =>
    obtain ⟨p1, p2⟩ := p
    rw [State.removeFromCells]
    rcases hp : s.remove_possibility p1 p2 i with ⟨t, bt⟩
    have ht : State.FlagsCounted t := by
      have := State.FlagsCounted_remove_possibility s p1 p2 i h
      rw [hp] at this
      exact this
    cases bt with
    | true => exact ih t ht
    | false => exact ht

/-- Settling an unsettled target lowers the unsettled-square count by
exactly one (whatever the validity outcome). -/
theorem State.unsettledCount_propagate (s : State) (r c i : Fin 9)
    (htgt : ¬0 < (s.getSq r c).solution) :
    State.unsettledCount ((s.propagate_solution r c i).1) = State.unsettledCount s - 1 ∧
    0 < State.unsettledCount s := by
  have hmem : ((r, c) : Fin 9 × Fin 9) ∈
      Finset.univ.filter (fun p : Fin 9 × Fin 9 => ¬0 < (s.getSq p.1 p.2).solution) := by
    rw [Finset.mem_filter]
    exact ⟨Finset.mem_univ _, htgt⟩
  have hfil : Finset.univ.filter
        (fun p : Fin 9 × Fin 9 => ¬0 < (((s.propagate_solution r c i).1).getSq p.1 p.2).solution)
      = (Finset.univ.filter fun p : Fin 9 × Fin 9 => ¬0 < (s.getSq p.1 p.2).solution).erase (r, c) := by
    ext p
    obtain ⟨p1, p2⟩ := p
    simp only [Finset.mem_erase, Finset.mem_filter, Finset.mem_univ, true_and]
    by_cases hp : p1 = r ∧ p2 = c
    · obtain ⟨e1, e2⟩ := hp
      subst e1
      subst e2
      rw [State.propagate_target]
      constructor
      · intro hx
        exact absurd (by omega : (0 : Int) < (i.val : Int) + 1) hx
      · intro hx
        exact absurd rfl hx.1
    · have hs := (State.propagate_cellFacts s r c i p1 p2 hp).1
      rw [hs]
      constructor
      · intro hx
        refine ⟨?_, hx⟩
        intro he
        injection he with e1 e2
        exact hp ⟨e1, e2⟩
      · intro hx
        exact hx.2
  unfold State.unsettledCount
  rw [hfil, Finset.card_erase_of_mem hmem]
  exact ⟨rfl, Finset.card_pos.mpr ⟨(r, c), hmem⟩⟩

/-- `propagate_solution` on an unsettled target preserves the
count invariant (on early-return paths as well). -/
theorem State.CountOk_propagate (s : State) (r c i : Fin 9)
    (hco : State.CountOk s) (htgt : ¬0 < (s.getSq r c).solution) :
    State.CountOk ((s.propagate_solution r c i).1) := by
  obtain ⟨hcnt, hpos⟩ := State.unsettledCount_propagate s r c i htgt
  unfold State.CountOk at hco ⊢
  rw [State.unsolved_propagate_solution, hcnt, hco]
  omega

/-- An invalid square other than the target stays invalid across
`propagate_solution`. -/
theorem State.invalid_persists (s : State) (r c i r' c' : Fin 9)
    (hne : ¬(r' = r ∧ c' = c))
    (hbad : (s.getSq r' c').is_valid = false) :
    (((s.propagate_solution r c i).1).getSq r' c').is_valid = false := by
  obtain ⟨h1, _, _, h4⟩ := State.propagate_cellFacts s r c i r' c' hne
  rw [Square.is_valid_eq_false_iff] at hbad ⊢
  omega

/-- A non-target square whose flag for the settled candidate is already
clear is untouched by `propagate_solution`. -/
theorem State.propagate_flagFalse_cell (s : State) (r c i r' c' : Fin 9)
    (hne : ¬(r' = r ∧ c' = c)) (hf : (s.getSq r' c').possible.get i = false) :
    ((s.propagate_solution r c i).1).getSq r' c' = s.getSq r' c' := by
  rw [State.propagate_solution_eq]
  rw [State.removeFromCells_flagFalse_cell _ _ _ _ _
    (by rw [State.getSq_writeTarget, if_neg hne]; exact hf)]
  rw [State.getSq_writeTarget, if_neg hne]

/-- Settled squares (with empty candidate sets) are fully preserved by
`propagate_solution` on an unsettled target. -/
theorem State.propagate_settled_preserved (s : State) (r c i r' c' : Fin 9)
    (hse : State.SettledEmpty s) (htgt : ¬0 < (s.getSq r c).solution)
    (hs : 0 < (s.getSq r' c').solution) :
    ((s.propagate_solution r c i).1).getSq r' c' = s.getSq r' c' := by
  have hne : ¬(r' = r ∧ c' = c) := by
    intro he
    obtain ⟨e1, e2⟩ := he
    subst e1
    subst e2
    exact htgt hs
  exact State.propagate_flagFalse_cell s r c i r' c' hne ((hse r' c' hs).2 i)

/-- `propagate_solution` keeps `num_possible` equal to the flag count of
every square. -/
theorem State.FlagsCounted_propagate (s : State) (r c i : Fin 9)
    (hfc : State.FlagsCounted s) :
    State.FlagsCounted ((s.propagate_solution r c i).1) := by
  rw [State.propagate_solution_eq]
  apply State.FlagsCounted_removeFromCells
  intro r' c'
  rw [State.getSq_writeTarget]
  by_cases hA : r' = r ∧ c' = c
  · rw [if_pos hA]
    rw [show Square.flagCount
        { solution := (i.val : Int) + 1, num_possible := 0, possible := Vector.replicate 9 false }
        = 0 from Square.flagCount_replicate_false _ _]
    simp
  · rw [if_neg hA]
    exact hfc r' c'

/-- A successful `propagate_solution` of a candidate still in the target's
candidate set, on an unsettled target, preserves all board invariants. -/
theorem State.Inv_propagate_true (s s' : State) (r c i : Fin 9)
    (hinv : State.Inv s) (htgt : ¬0 < (s.getSq r c).solution)
    (hflag : (s.getSq r c).possible.get i = true)
    (h : s.propagate_solution r c i = (s', true)) :
    State.Inv s' := by
  obtain ⟨hSE, hCO, hFC, hNC, hCL, hSR⟩ := hinv
  have hfst : (s.propagate_solution r c i).1 = s' := by rw [h]
  have htgt' : s'.getSq r c =
      { solution := (i.val : Int) + 1, num_possible := 0, possible := Vector.replicate 9 false } := by
    rw [← hfst]
    exact State.propagate_target s r c i
  have htgtSol : (s'.getSq r c).solution = (i.val : Int) + 1 := by
    rw [htgt']
  have htgtFlags : ∀ j : Fin 9, (s'.getSq r c).possible.get j = false := by
    intro j
    rw [htgt']
    exact Vector.get_replicate false j
  have hsol : ∀ r' c' : Fin 9, ¬(r' = r ∧ c' = c) →
      (s'.getSq r' c').solution = (s.getSq r' c').solution := by
    intro r' c' hne
    rw [← hfst]
    exact (State.propagate_cellFacts s r c i r' c' hne).1
  have hflags_ne : ∀ r' c' j : Fin 9, ¬(r' = r ∧ c' = c) → j ≠ i →
      (s'.getSq r' c').possible.get j = (s.getSq r' c').possible.get j := by
    intro r' c' j hne hj
    rw [← hfst]
    exact (State.propagate_cellFacts s r c i r' c' hne).2.1 j hj
  have hflags_mono : ∀ r' c' : Fin 9, ¬(r' = r ∧ c' = c) →
      (s.getSq r' c').possible.get i = false →
      (s'.getSq r' c').possible.get i = false := by
    intro r' c' hne hf
    have hmono := (State.propagate_cellFacts s r c i r' c' hne).2.2.1
    rw [hfst] at hmono
    cases hfin : (s'.getSq r' c').possible.get i with
    | false => rfl
    | true => rw [hmono hfin] at hf; exact absurd hf (by simp)
  refine ⟨?_, ?_, ?_, ?_, ?_, ?_⟩
  · -- SettledEmpty
    intro r' c' hs'
    by_cases hA : r' = r ∧ c' = c
    · obtain ⟨e1, e2⟩ := hA
      subst e1
      subst e2
      rw [htgt']
      exact ⟨rfl, fun j => Vector.get_replicate false j⟩
    · have hset : 0 < (s.getSq r' c').solution := by
        rw [← hsol r' c' hA]
        exact hs'
      have hpres : s'.getSq r' c' = s.getSq r' c' := by
        rw [← hfst]
        exact State.propagate_settled_preserved s r c i r' c' hSE htgt hset
      rw [hpres]
      exact hSE r' c' hset
  · -- CountOk
    rw [← hfst]
    exact State.CountOk_propagate s r c i hCO htgt
  · -- FlagsCounted
    rw [← hfst]
    exact State.FlagsCounted_propagate s r c i hFC
  · -- NoConflict
    intro a b a' b' hpeer hsa hsb
    by_cases hA : a = r ∧ b = c
    · obtain ⟨e1, e2⟩ := hA
      subst e1
      subst e2
      have hneB : ¬(a' = a ∧ b' = b) := hpeer.1
      rw [htgtSol, hsol a' b' hneB]
      rw [hsol a' b' hneB] at hsb
      rcases hSR a' b' with h0 | ⟨j, hj⟩
      · rw [h0] at hsb
        exact absurd hsb (by omega)
      · rw [hj]
        intro heq
        have hij : i = j := by
          apply Fin.ext
          omega
        subst hij
        have hcl := hCL a' b' a b i (isPeer_symm _ _ _ _ hpeer) hj
        simp [hcl] at hflag
    · by_cases hB : a' = r ∧ b' = c
      · obtain ⟨e1, e2⟩ := hB
        subst e1
        subst e2
        rw [htgtSol, hsol a b hA]
        rw [hsol a b hA] at hsa
        rcases hSR a b with h0 | ⟨j, hj⟩
        · rw [h0] at hsa
          exact absurd hsa (by omega)
        · rw [hj]
          intro heq
          have hij : j = i := by
            apply Fin.ext
            omega
          subst hij
          have hcl := hCL a b a' b' j hpeer hj
          simp [hcl] at hflag
      · rw [hsol a b hA, hsol a' b' hB]
        rw [hsol a b hA] at hsa
        rw [hsol a' b' hB] at hsb
        exact hNC a b a' b' hpeer hsa hsb
  · -- Cleared
    intro a b a' b' j hpeer hsolj
    by_cases hA : a = r ∧ b = c
    · obtain ⟨e1, e2⟩ := hA
      subst e1
      subst e2
      rw [htgtSol] at hsolj
      have hij : j = i := by
        apply Fin.ext
        omega
      subst hij
      have hmem : ((a', b') : Fin 9 × Fin 9) ∈ rowCells a ++ colCells b ++ blockCells a b :=
        (mem_touched_iff a b (a', b')).mpr (Or.inr hpeer)
      exact State.propagate_true_clears s s' a b j h (a', b') hmem
    · rw [hsol a b hA] at hsolj
      have hclS : (s.getSq a' b').possible.get j = false := hCL a b a' b' j hpeer hsolj
      by_cases hB : a' = r ∧ b' = c
      · obtain ⟨e1, e2⟩ := hB
        subst e1
        subst e2
        exact htgtFlags j
      · by_cases hji : j = i
        · subst hji
          exact hflags_mono a' b' hB hclS
        · rw [hflags_ne a' b' j hB hji]
          exact hclS
  · -- SolRange
    intro r' c'
    by_cases hA : r' = r ∧ c' = c
    · obtain ⟨e1, e2⟩ := hA
      subst e1
      subst e2
      rw [htgt']
      exact Or.inr ⟨i, rfl⟩
    · rw [hsol r' c' hA]
      exact hSR r' c'

/-- An assignment of candidate indices to all squares with no peer
conflicts: a complete valid Sudoku grid, the value of a square being its
index plus one. -/
def ValidAssign (A : Fin 9 → Fin 9 → Fin 9) : Prop :=
  ∀ r c r' c' : Fin 9, isPeer r c r' c' → A r c ≠ A r' c'

/-- Compatibility of an assignment with a search state: settled squares
agree with the assignment and unsettled squares still hold the
assignment's value as a candidate. -/
def Compat (A : Fin 9 → Fin 9 → Fin 9) (s : State) : Prop :=
  ∀ r c : Fin 9,
    (0 < (s.getSq r c).solution → (s.getSq r c).solution = ((A r c).val : Int) + 1) ∧
    (¬0 < (s.getSq r c).solution → (s.getSq r c).possible.get (A r c) = true)

/-- The target-settling writes keep `num_possible` equal to the flag
count. -/
theorem State.FlagsCounted_writeTarget (s : State) (r c i : Fin 9)
    (hfc : State.FlagsCounted s) : State.FlagsCounted (s.writeTarget r c i) := by
  intro r' c'
  rw [State.getSq_writeTarget]
  by_cases hA : r' = r ∧ c' = c
  · rw [if_pos hA]
    rw [show Square.flagCount
        { solution := (i.val : Int) + 1, num_possible := 0, possible := Vector.replicate 9 false }
        = 0 from Square.flagCount_replicate_false _ _]
    simp
  · rw [if_neg hA]
    exact hfc r' c'

/-- A clearing loop reports validity when every listed square is settled
or holds a candidate other than the removed one (given accurate flag
counts). -/
theorem State.removeFromCells_true_of (s : State) (cells : List (Fin 9 × Fin 9)) (i : Fin 9)
    (hFC : State.FlagsCounted s)
    (hok : ∀ p ∈ cells, 0 < (s.getSq p.1 p.2).solution ∨
      ∃ j : Fin 9, j ≠ i ∧ (s.getSq p.1 p.2).possible.get j = true) :
    (s.removeFromCells cells i).2 = true := by
  induction cells generalizing s with
  | nil => rfl
  | cons p rest ih =>
    obtain ⟨p1, p2⟩ := p
    rw [State.removeFromCells]
    rcases hp : s.remove_possibility p1 p2 i with ⟨t, bt⟩
    have hFCt : State.FlagsCounted t := by
      have hh := State.FlagsCounted_remove_possibility s p1 p2 i hFC
      rw [hp] at hh
      exact hh
    have hfacts : ∀ q1 q2 : Fin 9,
        ((t.getSq q1 q2).solution = (s.getSq q1 q2).solution) ∧
        (∀ j : Fin 9, j ≠ i →
          (t.getSq q1 q2).possible.get j = (s.getSq q1 q2).possible.get j) := by
      intro q1 q2
      have hh := State.remove_possibility_cellFacts s p1 p2 i q1 q2
      rw [hp] at hh
      exact ⟨hh.1, hh.2.1⟩
    have hvalid : bt = true := by
      have hsnd := State.remove_possibility_snd s p1 p2 i
      rw [hp] at hsnd
      dsimp only at hsnd
      rcases hok (p1, p2) (List.mem_cons_self _ _) with hsol | ⟨j, hji, hjt⟩
      · rw [hsnd, Square.is_valid_iff]
        left
        rw [(hfacts p1 p2).1]
        exact hsol
      · have hflag' : (t.getSq p1 p2).possible.get j = true := by
          rw [(hfacts p1 p2).2 j hji]
          exact hjt
        have hpos := Square.flagCount_pos (t.getSq p1 p2) j hflag'
        rw [hsnd, Square.is_valid_iff]
        right
        rw [hFCt p1 p2]
        omega
    subst hvalid
    apply ih t hFCt
    intro q hq
    rcases hok q (List.mem_cons_of_mem _ hq) with hsol | ⟨j, hji, hjt⟩
    · left
      rw [(hfacts q.1 q.2).1]
      exact hsol
    · right
      refine ⟨j, hji, ?_⟩
      rw [(hfacts q.1 q.2).2 j hji]
      exact hjt

/-- Settling the assignment's own value at an unsettled target of a
compatible, flag-counted state always reports validity: the hypothesis
exploration of a true solution never hits a contradiction. -/
theorem State.propagate_true_of_compat (A : Fin 9 → Fin 9 → Fin 9) (s : State) (r c : Fin 9)
    (hVA : ValidAssign A) (hC : Compat A s) (hFC : State.FlagsCounted s) :
    (s.propagate_solution r c (A r c)).2 = true := by
  rw [State.propagate_solution_eq]
  apply State.removeFromCells_true_of _ _ _ (State.FlagsCounted_writeTarget s r c (A r c) hFC)
  intro p hp
  rw [mem_touched_iff] at hp
  rcases hp with he | hpeer
  · subst he
    left
    rw [State.getSq_writeTarget]
    dsimp only
    rw [if_pos ⟨rfl, rfl⟩]
    show (0 : Int) < ((A r c).val : Int) + 1
    omega
  · by_cases hsolp : 0 < (s.getSq p.1 p.2).solution
    · left
      rw [State.getSq_writeTarget, if_neg hpeer.1]
      exact hsolp
    · right
      refine ⟨A p.1 p.2, ?_, ?_⟩
      · exact Ne.symm (hVA r c p.1 p.2 hpeer)
      · rw [State.getSq_writeTarget, if_neg hpeer.1]
        exact (hC p.1 p.2).2 hsolp

/-- Settling the assignment's own value preserves compatibility. -/
theorem Compat_propagate (A : Fin 9 → Fin 9 → Fin 9) (s : State) (r c : Fin 9)
    (hVA : ValidAssign A) (hC : Compat A s) (htgt : ¬0 < (s.getSq r c).solution) :
    Compat A ((s.propagate_solution r c (A r c)).1) := by
  intro r' c'
  by_cases hA : r' = r ∧ c' = c
  · obtain ⟨e1, e2⟩ := hA
    subst e1
    subst e2
    have ht := State.propagate_target s r' c' (A r' c')
    have htSol : (((s.propagate_solution r' c' (A r' c')).1).getSq r' c').solution
        = ((A r' c').val : Int) + 1 := by
      rw [ht]
    constructor
    · intro _
      exact htSol
    · intro hns
      exfalso
      apply hns
      rw [htSol]
      omega
  · have hfacts := State.propagate_cellFacts s r c (A r c) r' c' hA
    constructor
    · intro hsp
      rw [hfacts.1] at hsp ⊢
      exact (hC r' c').1 hsp
    · intro hnsp
      rw [hfacts.1] at hnsp
      have hflagS := (hC r' c').2 hnsp
      by_cases hji : A r' c' = A r c
      · by_cases hpeer : isPeer r c r' c'
        · exact absurd hji.symm (hVA r c r' c' hpeer)
        · have hnm : ((r', c') : Fin 9 × Fin 9) ∉ rowCells r ++ colCells c ++ blockCells r c := by
            rw [mem_touched_iff]
            intro hcase
            rcases hcase with he | hp
            · injection he with he1 he2
              exact hA ⟨he1, he2⟩
            · exact hpeer hp
          have huntouched : ((s.propagate_solution r c (A r c)).1).getSq r' c'
              = s.getSq r' c' := by
            rw [State.propagate_solution_eq,
              State.getSq_removeFromCells_not_mem _ _ _ _ _ hnm,
              State.getSq_writeTarget, if_neg hA]
          rw [huntouched]
          exact hflagS
      · rw [hfacts.2.1 (A r' c') hji]
        exact hflagS

/-- Row-major position of a square. -/
def rmIdx (r c : Fin 9) : Nat := r.val * 9 + c.val

/-- Row-major position of a scan cursor (`col` may reach 9, which is the
same position as the start of the next row). -/
def scanPos (row col : Nat) : Nat := row * 9 + min col 9

/-- All squares strictly before row-major position `k` are settled. -/
def State.settledBefore (s : State) (k : Nat) : Prop :=
  ∀ r c : Fin 9, rmIdx r c < k → 0 < (s.getSq r c).solution

/-- A scan that falls through (the `assert!(false)` path) saw only settled
squares from its cursor onward. -/
theorem scanFrom_exhausted_facts (s : State) : ∀ row col : Nat,
    scanFrom s row col = ScanResult.exhausted →
    ∀ r' c' : Fin 9, scanPos row col ≤ rmIdx r' c' → 0 < (s.getSq r' c').solution := by
  intro row col
  induction row, col using scanFrom.induct s with
  | case1 row col h h1 hset ih =>
    intro hs r' c' hpos
    rw [scanFrom, dif_pos h, dif_pos h1, if_pos hset] at hs
    by_cases he : rmIdx r' c' = row * 9 + col
    · simp only [rmIdx] at he
      have hc' := c'.isLt
      have hr' : r' = (⟨row, h⟩ : Fin 9) := Fin.ext (show r'.val = row by omega)
      have hc2 : c' = (⟨col, h1⟩ : Fin 9) := Fin.ext (show c'.val = col by omega)
      rw [hr', hc2]
      exact hset
    · apply ih hs r' c'
      simp only [scanPos, rmIdx] at hpos he ⊢
      omega
  | case2 row col h h1 hunset hval =>
    intro hs
    rw [scanFrom, dif_pos h, dif_pos h1, if_neg hunset, if_pos hval] at hs
    exact absurd hs (by simp)
  | case3 row col h h1 hunset hval =>
    intro hs
    rw [scanFrom, dif_pos h, dif_pos h1, if_neg hunset, if_neg hval] at hs
    exact absurd hs (by simp)
  | case4 row col h h1 ih =>
    intro hs r' c' hpos
    rw [scanFrom, dif_pos h, dif_neg h1] at hs
    apply ih hs r' c'
    simp only [scanPos] at hpos ⊢
    omega
  | case5 row col h =>
    intro _ r' c' hpos
    have hr := r'.isLt
    have hc := c'.isLt
    simp only [scanPos, rmIdx] at hpos
    omega

/-- A scan that hands a square to `parallel_solve_impl` found the first
unsettled square at or after its cursor, and that square is valid. -/
theorem scanFrom_branch_facts (s : State) : ∀ row col : Nat, ∀ r c : Fin 9,
    scanFrom s row col = ScanResult.branch r c →
    ¬0 < (s.getSq r c).solution ∧ (s.getSq r c).is_valid = true ∧
    scanPos row col ≤ rmIdx r c ∧
    (∀ r' c' : Fin 9, scanPos row col ≤ rmIdx r' c' → rmIdx r' c' < rmIdx r c →
      0 < (s.getSq r' c').solution) := by
  intro row col
  induction row, col using scanFrom.induct s with
  | case1 row col h h1 hset ih =>
    intro r c hs
    rw [scanFrom, dif_pos h, dif_pos h1, if_pos hset] at hs
    obtain ⟨u, v, w, x⟩ := ih r c hs
    refine ⟨u, v, ?_, ?_⟩
    · simp only [scanPos] at w ⊢
      omega
    · intro r' c' hp1 hp2
      by_cases he : rmIdx r' c' = row * 9 + col
      · simp only [rmIdx] at he
        have hc' := c'.isLt
        have hr' : r' = (⟨row, h⟩ : Fin 9) := Fin.ext (show r'.val = row by omega)
        have hc2 : c' = (⟨col, h1⟩ : Fin 9) := Fin.ext (show c'.val = col by omega)
        rw [hr', hc2]
        exact hset
      · apply x r' c' _ hp2
        simp only [scanPos, rmIdx] at hp1 he ⊢
        omega
  | case2 row col h h1 hunset hval =>
    intro r c hs
    rw [scanFrom, dif_pos h, dif_pos h1, if_neg hunset, if_pos hval] at hs
    injection hs with e1 e2
    subst e1
    subst e2
    refine ⟨hunset, hval, ?_, ?_⟩
    · show row * 9 + min col 9 ≤ row * 9 + col
      omega
    · intro r' c' hp1 hp2
      exfalso
      have hp1' : row * 9 + min col 9 ≤ rmIdx r' c' := hp1
      have hp2' : rmIdx r' c' < row * 9 + col := hp2
      simp only [rmIdx] at hp1' hp2'
      omega
  | case3 row col h h1 hunset hval =>
    intro r c hs
    rw [scanFrom, dif_pos h, dif_pos h1, if_neg hunset, if_neg hval] at hs
    exact absurd hs (by simp)
  | case4 row col h h1 ih =>
    intro r c hs
    rw [scanFrom, dif_pos h, dif_neg h1] at hs
    obtain ⟨u, v, w, x⟩ := ih r c hs
    refine ⟨u, v, ?_, ?_⟩
    · simp only [scanPos] at w ⊢
      omega
    · intro r' c' hp1 hp2
      apply x r' c' _ hp2
      simp only [scanPos] at hp1 ⊢
      omega
  | case5 row col h =>
    intro r c hs
    rw [scanFrom, dif_neg h] at hs
    exact absurd hs (by simp)

/-- A scan that reports a dead end found an invalid unsettled square. -/
theorem scanFrom_deadEnd_facts (s : State) : ∀ row col : Nat,
    scanFrom s row col = ScanResult.deadEnd →
    ∃ r c : Fin 9, ¬0 < (s.getSq r c).solution ∧ (s.getSq r c).is_valid = false := by
  intro row col
  induction row, col using scanFrom.induct s with
  | case1 row col h h1 hset ih =>
    intro hs
    rw [scanFrom, dif_pos h, dif_pos h1, if_pos hset] at hs
    exact ih hs
  | case2 row col h h1 hunset hval =>
    intro hs
    rw [scanFrom, dif_pos h, dif_pos h1, if_neg hunset, if_pos hval] at hs
    exact absurd hs (by simp)
  | case3 row col h h1 hunset hval =>
    intro _
    exact ⟨⟨row, h⟩, ⟨col, h1⟩, hunset, Bool.not_eq_true _ ▸ hval⟩
  | case4 row col h h1 ih =>
    intro hs
    rw [scanFrom, dif_pos h, dif_neg h1] at hs
    exact ih hs
  | case5 row col h =>
    intro hs
    rw [scanFrom, dif_neg h] at hs
    exact absurd hs (by simp)

/-- The reservation `parallel_solve_impl` requests (line 168): one thread
per possibility beyond the current thread. -/
def extra_threads_to_request (num_possible : Int) : Int := num_possible - 1

/-- The quota headroom under `max_threads` given the pre-update counter
value (lines 170-173). -/
def thread_quota_available (max_threads pre : Int) : Int := max (max_threads - pre) 0

/-- The number of extra workers the allocator grants (line 174). -/
def extra_threads_available_calc (max_threads pre extra : Int) : Int :=
  min (thread_quota_available max_threads pre) extra

/-- The reservation beyond the grant, released back (lines 175-178). -/
def quota_overflow (extra avail : Int) : Int := max (extra - avail) 0

/-- Unfolding equation for `parallel_solve_impl` in terms of the allocator
helpers. -/
theorem parallel_solve_impl_eq (s : State) (r c : Fin 9) (maxT : Int) (g : GState)
    (hu : 0 < s.unsolved_squares) :
    parallel_solve_impl s r c maxT g hu =
      solveCands s r c maxT
        ⟨g.quota + extra_threads_to_request ((s.getSq r c).num_possible)
            - quota_overflow (extra_threads_to_request ((s.getSq r c).num_possible))
                (extra_threads_available_calc maxT g.quota
                  (extra_threads_to_request ((s.getSq r c).num_possible))),
          g.cancelled⟩ hu 0
        (extra_threads_available_calc maxT g.quota
          (extra_threads_to_request ((s.getSq r c).num_possible))) [] := by
  unfold extra_threads_to_request extra_threads_available_calc quota_overflow
    thread_quota_available
  rw [parallel_solve_impl]
  dsimp only
  by_cases hov : 0 <
      max ((s.getSq r c).num_possible - 1
        - min (max (maxT - g.quota) 0) ((s.getSq r c).num_possible - 1)) 0
  · rw [if_pos hov]
  · rw [if_neg hov]
    have h0 : max ((s.getSq r c).num_possible - 1
        - min (max (maxT - g.quota) 0) ((s.getSq r c).num_possible - 1)) 0 = 0 := by
      omega
    rw [h0, sub_zero]

/-- The join loop leaves the coordination state unchanged. -/
theorem joinLoop_g (l : List (Option State × Bool × Bool)) (g : GState) :
    (joinLoop l g).g = g := by
  induction l with
  | nil => rfl
  | cons e rest ih =>
    obtain ⟨f, lk, pk⟩ := e
    rw [joinLoop]
    by_cases hf : f.isSome
    · rw [if_pos hf]
    · rw [if_neg hf]

/-- The join loop reports no spawns of its own. -/
theorem joinLoop_spawned (l : List (Option State × Bool × Bool)) (g : GState) :
    (joinLoop l g).spawned = 0 ∧ (joinLoop l g).localSpawned = 0 := by
  induction l with
  | nil => exact ⟨rfl, rfl⟩
  | cons e rest ih =>
    obtain ⟨f, lk, pk⟩ := e
    rw [joinLoop]
    by_cases hf : f.isSome
    · rw [if_pos hf]
      exact ⟨rfl, rfl⟩
    · rw [if_neg hf]
      exact ⟨rfl, rfl⟩

/-- The join loop succeeds exactly when some joined-or-pending worker
succeeded. -/
theorem joinLoop_found_isSome (l : List (Option State × Bool × Bool)) (g : GState) :
    (joinLoop l g).found.isSome = l.any fun e => e.1.isSome := by
  induction l with
  | nil => rfl
  | cons e rest ih =>
    obtain ⟨f, lk, pk⟩ := e
    rw [joinLoop]
    by_cases hf : f.isSome
    · rw [if_pos hf]
      simp [hf]
    · rw [if_neg hf]
      simp only [List.any_cons]
      rw [show f.isSome = false from Bool.not_eq_true _ ▸ hf]
      simp [ih]

/-- A successful join traces back to a worker's reported board. -/
theorem joinLoop_found_mem (l : List (Option State × Bool × Bool)) (g : GState) (b : State)
    (h : (joinLoop l g).found = some b) :
    ∃ e ∈ l, e.1 = some b := by
  induction l with
  | nil => exact absurd h (by simp [joinLoop])
  | cons e rest ih =>
    obtain ⟨f, lk, pk⟩ := e
    rw [joinLoop] at h
    by_cases hf : f.isSome
    · rw [if_pos hf] at h
      exact ⟨(f, lk, pk), List.mem_cons_self _ _, h⟩
    · rw [if_neg hf] at h
      obtain ⟨e', hm, he'⟩ := ih h
      exact ⟨e', List.mem_cons_of_mem _ hm, he'⟩

/-- The join loop does not panic when no worker panicked. -/
theorem joinLoop_panicked (l : List (Option State × Bool × Bool)) (g : GState)
    (h : ∀ e ∈ l, e.2.2 = false) :
    (joinLoop l g).panicked = false := by
  induction l with
  | nil => rfl
  | cons e rest ih =>
    obtain ⟨f, lk, pk⟩ := e
    rw [joinLoop]
    have hpk : pk = false := h (f, lk, pk) (List.mem_cons_self _ _)
    by_cases hf : f.isSome
    · rw [if_pos hf]
      exact hpk
    · rw [if_neg hf]
      have hrest := ih fun e' hm => h e' (List.mem_cons_of_mem _ hm)
      dsimp only
      rw [hpk, hrest]
      rfl

/-- Unfolding: a cancelled worker returns `false` immediately
(lines 130-132). -/
theorem parallel_solve_cancelled (s : State) (row col : Nat) (maxT : Int) (g : GState)
    (hc : g.cancelled = true) :
    parallel_solve s row col maxT g = ⟨none, g, false, false, 0, 0⟩ := by
  rw [parallel_solve, if_pos hc]

/-- Unfolding: a worker holding a finished board reports it and sets the
cancellation flag (lines 150-155). -/
theorem parallel_solve_done (s : State) (row col : Nat) (maxT : Int) (g : GState)
    (hc : g.cancelled = false) (hu : ¬0 < s.unsolved_squares) :
    parallel_solve s row col maxT g
      = ⟨some s, { g with cancelled := true }, false, false, 0, 0⟩ := by
  rw [parallel_solve, if_neg (by simp [hc]), dif_neg hu]

/-- Unfolding: a dead-end scan returns `false` (lines 141-144). -/
theorem parallel_solve_deadEnd (s : State) (row col : Nat) (maxT : Int) (g : GState)
    (hc : g.cancelled = false) (hu : 0 < s.unsolved_squares)
    (hscan : scanFrom s row col = ScanResult.deadEnd) :
    parallel_solve s row col maxT g = ⟨none, g, false, false, 0, 0⟩ := by
  rw [parallel_solve, if_neg (by simp [hc]), dif_pos hu, hscan]

/-- Unfolding: an exhausted scan reaches the `assert!(false)`
(lines 157-159). -/
theorem parallel_solve_exhausted (s : State) (row col : Nat) (maxT : Int) (g : GState)
    (hc : g.cancelled = false) (hu : 0 < s.unsolved_squares)
    (hscan : scanFrom s row col = ScanResult.exhausted) :
    parallel_solve s row col maxT g = ⟨none, g, false, true, 0, 0⟩ := by
  rw [parallel_solve, if_neg (by simp [hc]), dif_pos hu, hscan]

/-- Unfolding: a scan that finds an unsettled valid square branches into
`parallel_solve_impl` (line 145). -/
theorem parallel_solve_branch (s : State) (row col : Nat) (maxT : Int) (g : GState)
    (r c : Fin 9) (hc : g.cancelled = false) (hu : 0 < s.unsolved_squares)
    (hscan : scanFrom s row col = ScanResult.branch r c) :
    parallel_solve s row col maxT g = parallel_solve_impl s r c maxT g hu := by
  rw [parallel_solve, if_neg (by simp [hc]), dif_pos hu, hscan]

/-- Unfolding: the candidate loop skips a cleared flag (lines 181-184). -/
theorem solveCands_skip (s : State) (r c : Fin 9) (maxT : Int) (g : GState)
    (hu : 0 < s.unsolved_squares) (idx : Nat) (avail : Int)
    (children : List (Option State × Bool × Bool)) (h9 : idx < 9)
    (hflag : (s.getSq r c).possible.get ⟨idx, h9⟩ = false) :
    solveCands s r c maxT g hu idx avail children
      = solveCands s r c maxT g hu (idx + 1) avail children := by
  rw [solveCands, dif_pos h9, if_neg (by simp [hflag])]

/-- Unfolding: the candidate loop spawns a worker while extra threads are
available (lines 190-196). -/
theorem solveCands_spawn (s : State) (r c : Fin 9) (maxT : Int) (g : GState)
    (hu : 0 < s.unsolved_squares) (idx : Nat) (avail : Int)
    (children : List (Option State × Bool × Bool)) (h9 : idx < 9)
    (hflag : (s.getSq r c).possible.get ⟨idx, h9⟩ = true) (hav : 0 < avail) :
    solveCands s r c maxT g hu idx avail children =
      (let child := parallel_solve ((s.propagate_solution r c ⟨idx, h9⟩).1) r.val (c.val + 1)
        maxT g
       let rest := solveCands s r c maxT ⟨child.g.quota - 1, child.g.cancelled⟩ hu (idx + 1)
        (avail - 1) (children ++ [(child.found, child.leaked, child.panicked)])
       { rest with
           spawned := child.spawned + 1 + rest.spawned
           localSpawned := rest.localSpawned + 1 }) := by
  rw [solveCands, dif_pos h9, if_pos hflag, if_pos hav]

/-- Unfolding: with no extra threads the candidate runs sequentially,
returning at once on success (lines 197-203). -/
theorem solveCands_seq (s : State) (r c : Fin 9) (maxT : Int) (g : GState)
    (hu : 0 < s.unsolved_squares) (idx : Nat) (avail : Int)
    (children : List (Option State × Bool × Bool)) (h9 : idx < 9)
    (hflag : (s.getSq r c).possible.get ⟨idx, h9⟩ = true) (hav : ¬0 < avail) :
    solveCands s r c maxT g hu idx avail children =
      (let out := parallel_solve ((s.propagate_solution r c ⟨idx, h9⟩).1) r.val (c.val + 1)
        maxT g
       if out.found.isSome then
         { out with
             leaked := out.leaked || !children.isEmpty || children.any fun t => t.2.1
             localSpawned := 0 }
       else
         let rest := solveCands s r c maxT out.g hu (idx + 1) avail children
         { rest with
             spawned := out.spawned + rest.spawned
             leaked := out.leaked || rest.leaked
             panicked := out.panicked || rest.panicked }) := by
  rw [solveCands, dif_pos h9, if_pos hflag, if_neg hav]

/-- Unfolding: after the ninth candidate the loop joins its workers
(lines 205-209). -/
theorem solveCands_join (s : State) (r c : Fin 9) (maxT : Int) (g : GState)
    (hu : 0 < s.unsolved_squares) (idx : Nat) (avail : Int)
    (children : List (Option State × Bool × Bool)) (h9 : ¬idx < 9) :
    solveCands s r c maxT g hu idx avail children = joinLoop children g := by
  rw [solveCands, dif_neg h9]

/-- The join loop fails when every worker failed. -/
theorem joinLoop_found_none (l : List (Option State × Bool × Bool)) (g : GState)
    (h : ∀ e ∈ l, e.1 = none) :
    (joinLoop l g).found = none := by
  induction l with
  | nil => rfl
  | cons e rest ih =>
    obtain ⟨f, lk, pk⟩ := e
    rw [joinLoop]
    have hf : f = none := h (f, lk, pk) (List.mem_cons_self _ _)
    rw [if_neg (by rw [hf]; simp)]
    dsimp only
    exact ih fun e' hm => h e' (List.mem_cons_of_mem _ hm)

/-- A positive unsettled count follows from any unsettled square. -/
theorem State.unsettledCount_pos_of (s : State) (rb cb : Fin 9)
    (h : ¬0 < (s.getSq rb cb).solution) : 0 < State.unsettledCount s :=
  Finset.card_pos.mpr ⟨(rb, cb), by rw [Finset.mem_filter]; exact ⟨Finset.mem_univ _, h⟩⟩

/-- A state containing an invalid square can never reach terminal success:
every search from it (any cursor, thread budget and coordination state)
returns failure.  This is the sense in which a contradiction is a
recoverable "branch failed" outcome. -/
theorem parallel_solve_dead : ∀ (s : State) (row col : Nat) (maxT : Int) (g : GState),
    State.CountOk s → (∃ rb cb : Fin 9, (s.getSq rb cb).is_valid = false) →
    (parallel_solve s row col maxT g).found = none := by
  refine parallel_solve.induct
    (fun s row col maxT g => State.CountOk s →
      (∃ rb cb : Fin 9, (s.getSq rb cb).is_valid = false) →
      (parallel_solve s row col maxT g).found = none)
    (fun s r c maxT g hu => State.CountOk s →
      (∃ rb cb : Fin 9, (s.getSq rb cb).is_valid = false) →
      ¬0 < (s.getSq r c).solution → (s.getSq r c).is_valid = true →
      (parallel_solve_impl s r c maxT g hu).found = none)
    (fun s r c maxT g hu idx avail children => State.CountOk s →
      (∃ rb cb : Fin 9, (s.getSq rb cb).is_valid = false) →
      ¬0 < (s.getSq r c).solution → (s.getSq r c).is_valid = true →
      (∀ e ∈ children, e.1 = none) →
      (solveCands s r c maxT g hu idx avail children).found = none)
    ?_ ?_ ?_ ?_ ?_ ?_ ?_ ?_ ?_ ?_ ?_
  · -- cancelled
    intro s row col maxT g hc _ _
    rw [parallel_solve_cancelled s row col maxT g hc]
  · -- dead-end scan
    intro s row col maxT g hc hu hscan _ _
    rw [parallel_solve_deadEnd s row col maxT g (Bool.not_eq_true _ ▸ hc) hu hscan]
  · -- branch
    intro s row col maxT g hc hu r c hscan hmot2 hco hbad
    obtain ⟨hunset, hvalid, _, _⟩ := scanFrom_branch_facts s row col r c hscan
    rw [parallel_solve_branch s row col maxT g r c (Bool.not_eq_true _ ▸ hc) hu hscan]
    exact hmot2 hco hbad hunset hvalid
  · -- exhausted scan
    intro s row col maxT g hc hu hscan _ _
    rw [parallel_solve_exhausted s row col maxT g (Bool.not_eq_true _ ▸ hc) hu hscan]
  · -- terminal success: impossible with an invalid square on board
    intro s row col maxT g hc hnu hco hbad
    exfalso
    obtain ⟨rb, cb, hbv⟩ := hbad
    rw [Square.is_valid_eq_false_iff] at hbv
    have hpos := State.unsettledCount_pos_of s rb cb (by omega)
    unfold State.CountOk at hco
    omega
  · -- impl
    intro s r c maxT g hu extra pre g1 tqa ea ov g2 hmot3 hco hbad hunset hvalid
    rw [parallel_solve_impl]
    exact hmot3 hco hbad hunset hvalid fun e he => absurd he (List.not_mem_nil _)
  · -- candidate loop: spawn
    intro s r c maxT g hu idx avail children h9 hflag state_copy hav child g'
      hmot1a hmot1b hmot3 hco hbad hunset hvalid hch
    have hne : ∀ rb cb : Fin 9, (s.getSq rb cb).is_valid = false → ¬(rb = r ∧ cb = c) := by
      intro rb cb hbv he
      rw [he.1, he.2, hvalid] at hbv
      simp at hbv
    have hco' : State.CountOk state_copy := State.CountOk_propagate s r c ⟨idx, h9⟩ hco hunset
    have hbad' : ∃ rb cb : Fin 9, (state_copy.getSq rb cb).is_valid = false := by
      obtain ⟨rb, cb, hbv⟩ := hbad
      exact ⟨rb, cb, State.invalid_persists s r c ⟨idx, h9⟩ rb cb (hne rb cb hbv) hbv⟩
    have hchild : child.found = none := hmot1a hco' hbad'
    rw [solveCands_spawn s r c maxT g hu idx avail children h9 hflag hav]
    dsimp only
    apply hmot3 hco hbad hunset hvalid
    intro e he
    rcases List.mem_append.mp he with hmem | hmem
    · exact hch e hmem
    · rw [List.mem_singleton.mp hmem]
      exact hchild
  · -- candidate loop: sequential success (impossible here)
    intro s r c maxT g hu idx avail children h9 hflag state_copy hav out hsome
      hmot1 hco hbad hunset hvalid hch
    exfalso
    have hne : ∀ rb cb : Fin 9, (s.getSq rb cb).is_valid = false → ¬(rb = r ∧ cb = c) := by
      intro rb cb hbv he
      rw [he.1, he.2, hvalid] at hbv
      simp at hbv
    have hco' : State.CountOk state_copy := State.CountOk_propagate s r c ⟨idx, h9⟩ hco hunset
    have hbad' : ∃ rb cb : Fin 9, (state_copy.getSq rb cb).is_valid = false := by
      obtain ⟨rb, cb, hbv⟩ := hbad
      exact ⟨rb, cb, State.invalid_persists s r c ⟨idx, h9⟩ rb cb (hne rb cb hbv) hbv⟩
    have hchild : out.found = none := hmot1 hco' hbad'
    rw [hchild] at hsome
    simp at hsome
  · -- candidate loop: sequential failure, loop on
    intro s r c maxT g hu idx avail children h9 hflag state_copy hav out hnotsome
      hmot1a hmot1b hmot3 hco hbad hunset hvalid hch
    have hout : out = parallel_solve ((s.propagate_solution r c ⟨idx, h9⟩).1) r.val (c.val + 1)
        maxT g := rfl
    rw [solveCands_seq s r c maxT g hu idx avail children h9 hflag hav]
    dsimp only
    rw [hout] at hnotsome
    rw [if_neg hnotsome]
    dsimp only
    exact hmot3 hco hbad hunset hvalid hch
  · -- candidate loop: skip
    intro s r c maxT g hu idx avail children h9 hflagneg hmot3 hco hbad hunset hvalid hch
    rw [solveCands_skip s r c maxT g hu idx avail children h9 (Bool.not_eq_true _ ▸ hflagneg)]
    exact hmot3 hco hbad hunset hvalid hch
  · -- candidate loop: join
    intro s r c maxT g hu idx avail children h9 hco hbad hunset hvalid hch
    rw [solveCands_join s r c maxT g hu idx avail children h9]
    exact joinLoop_found_none children g hch

/-- Arithmetic of the allocator's reserve-then-release sequence, stated on
the raw shape appearing in `parallel_solve_impl`. -/
theorem alloc_g2_facts (maxT pre extra : Int) (g1c : Bool) :
    ((if 0 < max (extra - min (max (maxT - pre) 0) extra) 0
        then ({ quota := pre + extra - max (extra - min (max (maxT - pre) 0) extra) 0,
                cancelled := g1c } : GState)
        else { quota := pre + extra, cancelled := g1c }).quota
      = pre + extra - max (extra - min (max (maxT - pre) 0) extra) 0) ∧
    ((if 0 < max (extra - min (max (maxT - pre) 0) extra) 0
        then ({ quota := pre + extra - max (extra - min (max (maxT - pre) 0) extra) 0,
                cancelled := g1c } : GState)
        else { quota := pre + extra, cancelled := g1c }).cancelled = g1c) := by
  constructor
  · split
    · rfl
    next h0 =>
      show pre + extra = pre + extra - max (extra - min (max (maxT - pre) 0) extra) 0
      omega
  · split
    · rfl
    · rfl

/-- Turning a failed `isSome` test into an `Option` equation. -/
theorem found_eq_none_of_not_isSome (o : SolveOut) (h : ¬o.found.isSome = true) :
    o.found = none := by
  cases hf : o.found with
  | none => rfl
  | some b => rw [hf] at h; simp at h

/-- With `max_threads = 1` and the quota counter at its initial value 1,
the search runs fully sequentially: the quota counter is restored to 1 on
return, no worker is ever spawned, and the cancellation flag is unchanged
whenever the call fails. -/
theorem parallel_solve_seq_facts : ∀ (s : State) (row col : Nat) (maxT : Int) (g : GState),
    maxT = 1 → g.quota = 1 →
    (parallel_solve s row col maxT g).g.quota = 1 ∧
    (parallel_solve s row col maxT g).spawned = 0 ∧
    ((parallel_solve s row col maxT g).found = none →
      (parallel_solve s row col maxT g).g.cancelled = g.cancelled) := by
  refine parallel_solve.induct
    (fun s row col maxT g => maxT = 1 → g.quota = 1 →
      (parallel_solve s row col maxT g).g.quota = 1 ∧
      (parallel_solve s row col maxT g).spawned = 0 ∧
      ((parallel_solve s row col maxT g).found = none →
        (parallel_solve s row col maxT g).g.cancelled = g.cancelled))
    (fun s r c maxT g hu => maxT = 1 → g.quota = 1 → 0 < (s.getSq r c).num_possible →
      (parallel_solve_impl s r c maxT g hu).g.quota = 1 ∧
      (parallel_solve_impl s r c maxT g hu).spawned = 0 ∧
      ((parallel_solve_impl s r c maxT g hu).found = none →
        (parallel_solve_impl s r c maxT g hu).g.cancelled = g.cancelled))
    (fun s r c maxT g hu idx avail children => maxT = 1 → g.quota = 1 → avail ≤ 0 →
      children = [] →
      (solveCands s r c maxT g hu idx avail children).g.quota = 1 ∧
      (solveCands s r c maxT g hu idx avail children).spawned = 0 ∧
      ((solveCands s r c maxT g hu idx avail children).found = none →
        (solveCands s r c maxT g hu idx avail children).g.cancelled = g.cancelled))
    ?_ ?_ ?_ ?_ ?_ ?_ ?_ ?_ ?_ ?_ ?_
  · -- cancelled
    intro s row col maxT g hc hmax hq
    rw [parallel_solve_cancelled s row col maxT g hc]
    exact ⟨hq, rfl, fun _ => rfl⟩
  · -- dead-end scan
    intro s row col maxT g hc hu hscan hmax hq
    rw [parallel_solve_deadEnd s row col maxT g (Bool.not_eq_true _ ▸ hc) hu hscan]
    exact ⟨hq, rfl, fun _ => rfl⟩
  · -- branch
    intro s row col maxT g hc hu r c hscan hmot2 hmax hq
    obtain ⟨hunset, hvalid, _, _⟩ := scanFrom_branch_facts s row col r c hscan
    rw [Square.is_valid_iff] at hvalid
    have hnum : 0 < (s.getSq r c).num_possible := by
      rcases hvalid with h | h
      · exact absurd h hunset
      · exact h
    rw [parallel_solve_branch s row col maxT g r c (Bool.not_eq_true _ ▸ hc) hu hscan]
    exact hmot2 hmax hq hnum
  · -- exhausted scan
    intro s row col maxT g hc hu hscan hmax hq
    rw [parallel_solve_exhausted s row col maxT g (Bool.not_eq_true _ ▸ hc) hu hscan]
    exact ⟨hq, rfl, fun _ => rfl⟩
  · -- terminal success
    intro s row col maxT g hc hnu hmax hq
    rw [parallel_solve_done s row col maxT g (Bool.not_eq_true _ ▸ hc) hnu]
    refine ⟨hq, rfl, fun hnone => ?_⟩
    simp at hnone
  · -- impl
    intro s r c maxT g hu extra pre g1 tqa ea ov g2 hmot3 hmax hq hnum
    have hg2q : g2.quota = g.quota + ((s.getSq r c).num_possible - 1)
        - max ((s.getSq r c).num_possible - 1
            - min (max (maxT - g.quota) 0) ((s.getSq r c).num_possible - 1)) 0 :=
      (alloc_g2_facts maxT g.quota ((s.getSq r c).num_possible - 1) g.cancelled).1
    have hg2c : g2.cancelled = g.cancelled :=
      (alloc_g2_facts maxT g.quota ((s.getSq r c).num_possible - 1) g.cancelled).2
    have heaval : ea = min (max (maxT - g.quota) 0) ((s.getSq r c).num_possible - 1) := rfl
    rw [hmax, hq] at hg2q heaval
    have hg2q1 : g2.quota = 1 := by
      rw [hg2q]
      omega
    have hea : ea ≤ 0 := by
      rw [heaval]
      omega
    obtain ⟨k1, k2, k3⟩ := hmot3 hmax hg2q1 hea rfl
    rw [parallel_solve_impl]
    refine ⟨k1, k2, fun hnone => ?_⟩
    have hnone' : (solveCands s r c maxT g2 hu 0 ea []).found = none := hnone
    have hfin := k3 hnone'
    rw [hg2c] at hfin
    exact hfin
  · -- spawn: impossible with no available threads
    intro s r c maxT g hu idx avail children h9 hflag state_copy hav child g'
      hmot1a hmot1b hmot3 hmax hq hea hch
    exfalso
    omega
  · -- sequential success
    intro s r c maxT g hu idx avail children h9 hflag state_copy hav out hsome
      hmot1 hmax hq hea hch
    have hout : out = parallel_solve state_copy r.val (c.val + 1) maxT g := rfl
    obtain ⟨k1, k2, _⟩ := hmot1 hmax hq
    rw [solveCands_seq s r c maxT g hu idx avail children h9 hflag hav]
    dsimp only
    rw [← hout, if_pos hsome]
    refine ⟨k1, k2, fun hnone => ?_⟩
    exfalso
    rw [show ({ out with
        leaked := out.leaked || !children.isEmpty || children.any fun t => t.2.1,
        localSpawned := 0 } : SolveOut).found = out.found from rfl] at hnone
    rw [hnone] at hsome
    simp at hsome
  · -- sequential failure, loop on
    intro s r c maxT g hu idx avail children h9 hflag state_copy hav out hnotsome
      hmot1a hmot1b hmot3 hmax hq hea hch
    have hout : out = parallel_solve state_copy r.val (c.val + 1) maxT g := rfl
    obtain ⟨k1, k2, k3⟩ := hmot1a hmax hq
    have houtnone : out.found = none := found_eq_none_of_not_isSome out hnotsome
    have hocanc : out.g.cancelled = g.cancelled := k3 houtnone
    have hoq : out.g.quota = 1 := k1
    obtain ⟨m1, m2, m3⟩ := hmot3 hmax hoq hea hch
    rw [solveCands_seq s r c maxT g hu idx avail children h9 hflag hav]
    dsimp only
    rw [← hout, if_neg hnotsome]
    dsimp only
    refine ⟨m1, ?_, fun hnone => ?_⟩
    · rw [k2, m2]
    · rw [m3 hnone, hocanc]
  · -- skip
    intro s r c maxT g hu idx avail children h9 hflagneg hmot3 hmax hq hea hch
    rw [solveCands_skip s r c maxT g hu idx avail children h9 (Bool.not_eq_true _ ▸ hflagneg)]
    exact hmot3 hmax hq hea hch
  · -- join
    intro s r c maxT g hu idx avail children h9 hmax hq hea hch
    rw [solveCands_join s r c maxT g hu idx avail children h9, hch]
    exact ⟨hq, rfl, fun _ => rfl⟩

/-- Soundness of the search: from a state satisfying the board
invariants, any board the search reports satisfies the invariants, is
fully settled, and agrees with the start state on every settled square. -/
theorem parallel_solve_sound : ∀ (s : State) (row col : Nat) (maxT : Int) (g : GState),
    ∀ b : State, State.Inv s → (parallel_solve s row col maxT g).found = some b →
    State.Inv b ∧ b.unsolved_squares = 0 ∧
    (∀ r' c' : Fin 9, 0 < (s.getSq r' c').solution → b.getSq r' c' = s.getSq r' c') := by
  refine parallel_solve.induct
    (fun s row col maxT g => ∀ b : State, State.Inv s →
      (parallel_solve s row col maxT g).found = some b →
      State.Inv b ∧ b.unsolved_squares = 0 ∧
      (∀ r' c' : Fin 9, 0 < (s.getSq r' c').solution → b.getSq r' c' = s.getSq r' c'))
    (fun s r c maxT g hu => ∀ b : State, State.Inv s → ¬0 < (s.getSq r c).solution →
      (parallel_solve_impl s r c maxT g hu).found = some b →
      State.Inv b ∧ b.unsolved_squares = 0 ∧
      (∀ r' c' : Fin 9, 0 < (s.getSq r' c').solution → b.getSq r' c' = s.getSq r' c'))
    (fun s r c maxT g hu idx avail children => ∀ b : State, State.Inv s →
      ¬0 < (s.getSq r c).solution →
      (∀ e ∈ children, ∀ b' : State, e.1 = some b' →
        State.Inv b' ∧ b'.unsolved_squares = 0 ∧
        (∀ r' c' : Fin 9, 0 < (s.getSq r' c').solution → b'.getSq r' c' = s.getSq r' c')) →
      (solveCands s r c maxT g hu idx avail children).found = some b →
      State.Inv b ∧ b.unsolved_squares = 0 ∧
      (∀ r' c' : Fin 9, 0 < (s.getSq r' c').solution → b.getSq r' c' = s.getSq r' c'))
    ?_ ?_ ?_ ?_ ?_ ?_ ?_ ?_ ?_ ?_ ?_
  · -- cancelled
    intro s row col maxT g hc b _ hfound
    rw [parallel_solve_cancelled s row col maxT g hc] at hfound
    exact absurd hfound (by simp)
  · -- dead-end scan
    intro s row col maxT g hc hu hscan b _ hfound
    rw [parallel_solve_deadEnd s row col maxT g (Bool.not_eq_true _ ▸ hc) hu hscan] at hfound
    exact absurd hfound (by simp)
  · -- branch
    intro s row col maxT g hc hu r c hscan hmot2 b hinv hfound
    obtain ⟨hunset, _, _, _⟩ := scanFrom_branch_facts s row col r c hscan
    rw [parallel_solve_branch s row col maxT g r c (Bool.not_eq_true _ ▸ hc) hu hscan] at hfound
    exact hmot2 b hinv hunset hfound
  · -- exhausted scan
    intro s row col maxT g hc hu hscan b _ hfound
    rw [parallel_solve_exhausted s row col maxT g (Bool.not_eq_true _ ▸ hc) hu hscan] at hfound
    exact absurd hfound (by simp)
  · -- terminal success
    intro s row col maxT g hc hnu b hinv hfound
    rw [parallel_solve_done s row col maxT g (Bool.not_eq_true _ ▸ hc) hnu] at hfound
    have hb : s = b := by
      have := congrArg (fun o : Option State => o) hfound
      injection hfound
    subst hb
    refine ⟨hinv, ?_, fun _ _ _ => rfl⟩
    obtain ⟨_, hco, _⟩ := hinv
    unfold State.CountOk at hco
    have hge : (0 : Int) ≤ (State.unsettledCount s : Int) := by positivity
    omega
  · -- impl
    intro s r c maxT g hu extra pre g1 tqa ea ov g2 hmot3 b hinv hunset hfound
    rw [parallel_solve_impl] at hfound
    have hfound' : (solveCands s r c maxT g2 hu 0 ea []).found = some b := hfound
    exact hmot3 b hinv hunset (fun e he => absurd he (List.not_mem_nil _)) hfound'
  · -- spawn
    intro s r c maxT g hu idx avail children h9 hflag state_copy hav child g'
      hmot1a hmot1b hmot3 b hinv hunset hch hfound
    have hSE := hinv.1
    have hCO := hinv.2.1
    have hchild_sound : ∀ b' : State, child.found = some b' →
        State.Inv b' ∧ b'.unsolved_squares = 0 ∧
        (∀ r' c' : Fin 9, 0 < (s.getSq r' c').solution → b'.getSq r' c' = s.getSq r' c') := by
      intro b' hcf
      rcases hps : s.propagate_solution r c ⟨idx, h9⟩ with ⟨s₁, bres⟩
      have hsc : state_copy = s₁ := by
        rw [show state_copy = (s.propagate_solution r c ⟨idx, h9⟩).1 from rfl, hps]
      have hcf' : (parallel_solve state_copy r.val (c.val + 1) maxT g).found = some b' := hcf
      cases bres with
      | false =>
        have hco1 : State.CountOk s₁ := by
          have h' := State.CountOk_propagate s r c ⟨idx, h9⟩ hCO hunset
          rw [hps] at h'
          exact h'
        have hbad1 : ∃ rb cb : Fin 9, (s₁.getSq rb cb).is_valid = false := by
          obtain ⟨p, _, hpv⟩ := State.propagate_false_invalid s s₁ r c ⟨idx, h9⟩ hps
          exact ⟨p.1, p.2, hpv⟩
        have hdead := parallel_solve_dead s₁ r.val (c.val + 1) maxT g hco1 hbad1
        rw [hsc, hdead] at hcf'
        exact absurd hcf' (by simp)
      | true =>
        have hinv1 : State.Inv s₁ :=
          State.Inv_propagate_true s s₁ r c ⟨idx, h9⟩ hinv hunset hflag hps
        rw [hsc] at hcf'
        obtain ⟨k1, k2, k3⟩ := hmot1a b' (by rw [hsc]; exact hinv1) hcf
        refine ⟨k1, k2, fun r' c' hset => ?_⟩
        have hpress : s₁.getSq r' c' = s.getSq r' c' := by
          have h' := State.propagate_settled_preserved s r c ⟨idx, h9⟩ r' c' hSE hunset hset
          rw [hps] at h'
          exact h'
        have hset1 : 0 < (state_copy.getSq r' c').solution := by
          rw [hsc, hpress]
          exact hset
        rw [k3 r' c' hset1, hsc, hpress]
    rw [solveCands_spawn s r c maxT g hu idx avail children h9 hflag hav] at hfound
    have hfound' :
        (solveCands s r c maxT ⟨child.g.quota - 1, child.g.cancelled⟩ hu (idx + 1) (avail - 1)
          (children ++ [(child.found, child.leaked, child.panicked)])).found = some b := hfound
    apply hmot3 b hinv hunset _ hfound'
    intro e he b' heb
    rcases List.mem_append.mp he with hmem | hmem
    · exact hch e hmem b' heb
    · rw [List.mem_singleton.mp hmem] at heb
      exact hchild_sound b' heb
  · -- sequential success
    intro s r c maxT g hu idx avail children h9 hflag state_copy hav out hsome
      hmot1 b hinv hunset hch hfound
    have hSE := hinv.1
    have hCO := hinv.2.1
    rw [solveCands_seq s r c maxT g hu idx avail children h9 hflag hav] at hfound
    have hout : out = parallel_solve state_copy r.val (c.val + 1) maxT g := rfl
    rw [← hout, if_pos hsome] at hfound
    have hfound2 : out.found = some b := hfound
    rcases hps : s.propagate_solution r c ⟨idx, h9⟩ with ⟨s₁, bres⟩
    have hsc : state_copy = s₁ := by
      rw [show state_copy = (s.propagate_solution r c ⟨idx, h9⟩).1 from rfl, hps]
    have hcf' : (parallel_solve state_copy r.val (c.val + 1) maxT g).found = some b := hfound2
    cases bres with
    | false =>
      have hco1 : State.CountOk s₁ := by
        have h' := State.CountOk_propagate s r c ⟨idx, h9⟩ hCO hunset
        rw [hps] at h'
        exact h'
      have hbad1 : ∃ rb cb : Fin 9, (s₁.getSq rb cb).is_valid = false := by
        obtain ⟨p, _, hpv⟩ := State.propagate_false_invalid s s₁ r c ⟨idx, h9⟩ hps
        exact ⟨p.1, p.2, hpv⟩
      have hdead := parallel_solve_dead s₁ r.val (c.val + 1) maxT g hco1 hbad1
      rw [hsc, hdead] at hcf'
      exact absurd hcf' (by simp)
    | true =>
      have hinv1 : State.Inv s₁ :=
        State.Inv_propagate_true s s₁ r c ⟨idx, h9⟩ hinv hunset hflag hps
      obtain ⟨k1, k2, k3⟩ := hmot1 b (by rw [hsc]; exact hinv1) hfound2
      refine ⟨k1, k2, fun r' c' hset => ?_⟩
      have hpress : s₁.getSq r' c' = s.getSq r' c' := by
        have h' := State.propagate_settled_preserved s r c ⟨idx, h9⟩ r' c' hSE hunset hset
        rw [hps] at h'
        exact h'
      have hset1 : 0 < (state_copy.getSq r' c').solution := by
        rw [hsc, hpress]
        exact hset
      rw [k3 r' c' hset1, hsc, hpress]
  · -- sequential failure
    intro s r c maxT g hu idx avail children h9 hflag state_copy hav out hnotsome
      hmot1a hmot1b hmot3 b hinv hunset hch hfound
    rw [solveCands_seq s r c maxT g hu idx avail children h9 hflag hav] at hfound
    have hout : out = parallel_solve state_copy r.val (c.val + 1) maxT g := rfl
    rw [← hout, if_neg hnotsome] at hfound
    have hfound' : (solveCands s r c maxT out.g hu (idx + 1) avail children).found
        = some b := hfound
    exact hmot3 b hinv hunset hch hfound'
  · -- skip
    intro s r c maxT g hu idx avail children h9 hflagneg hmot3 b hinv hunset hch hfound
    rw [solveCands_skip s r c maxT g hu idx avail children h9
      (Bool.not_eq_true _ ▸ hflagneg)] at hfound
    exact hmot3 b hinv hunset hch hfound
  · -- join
    intro s r c maxT g hu idx avail children h9 b hinv hunset hch hfound
    rw [solveCands_join s r c maxT g hu idx avail children h9] at hfound
    obtain ⟨e, hem, heq⟩ := joinLoop_found_mem children g b hfound
    exact hch e hem b heq

/-- Settling the square at the frontier extends the settled prefix by
one. -/
theorem settledBefore_propagate (s : State) (r c i : Fin 9)
    (hsb : State.settledBefore s (rmIdx r c)) :
    State.settledBefore ((s.propagate_solution r c i).1) (rmIdx r c + 1) := by
  intro r' c' hlt
  by_cases hA : r' = r ∧ c' = c
  · obtain ⟨e1, e2⟩ := hA
    subst e1
    subst e2
    rw [State.propagate_target]
    show (0 : Int) < (i.val : Int) + 1
    omega
  · have hsol := (State.propagate_cellFacts s r c i r' c' hA).1
    rw [hsol]
    apply hsb
    have hb2 := c'.isLt
    have hb3 := c.isLt
    have hne : r'.val * 9 + c'.val ≠ r.val * 9 + c.val := by
      intro he
      exact hA ⟨Fin.ext (by omega), Fin.ext (by omega)⟩
    simp only [rmIdx] at hlt ⊢
    omega

/-- The scan cursor one step past a square sits at the next row-major
position. -/
theorem scanPos_succ (r c : Fin 9) : scanPos r.val (c.val + 1) = rmIdx r c + 1 := by
  have := c.isLt
  simp only [scanPos, rmIdx]
  omega

/-- A state with a positive count and everything settled before the
cursor cannot exhaust the scan: the `assert!(false)` is unreachable. -/
theorem not_exhausted_of_settledBefore (s : State) (row col : Nat)
    (hco : State.CountOk s) (hu : 0 < s.unsolved_squares)
    (hsb : State.settledBefore s (scanPos row col))
    (hscan : scanFrom s row col = ScanResult.exhausted) : False := by
  have hall : ∀ r' c' : Fin 9, 0 < (s.getSq r' c').solution := by
    intro r' c'
    by_cases h : scanPos row col ≤ rmIdx r' c'
    · exact scanFrom_exhausted_facts s row col hscan r' c' h
    · exact hsb r' c' (by omega)
  have hcnt : State.unsettledCount s = 0 := by
    unfold State.unsettledCount
    rw [Finset.card_eq_zero, Finset.filter_eq_empty_iff]
    intro p _
    exact not_not_intro (hall p.1 p.2)
  unfold State.CountOk at hco
  omega

/-- From any start whose count invariant holds and whose scan cursor is
preceded only by settled squares, the search never reaches the trailing
`assert!(false)` of `parallel_solve`. -/
theorem parallel_solve_no_panic : ∀ (s : State) (row col : Nat) (maxT : Int) (g : GState),
    State.CountOk s → State.settledBefore s (scanPos row col) →
    (parallel_solve s row col maxT g).panicked = false := by
  refine parallel_solve.induct
    (fun s row col maxT g => State.CountOk s → State.settledBefore s (scanPos row col) →
      (parallel_solve s row col maxT g).panicked = false)
    (fun s r c maxT g hu => State.CountOk s → ¬0 < (s.getSq r c).solution →
      State.settledBefore s (rmIdx r c) →
      (parallel_solve_impl s r c maxT g hu).panicked = false)
    (fun s r c maxT g hu idx avail children => State.CountOk s →
      ¬0 < (s.getSq r c).solution → State.settledBefore s (rmIdx r c) →
      (∀ e ∈ children, e.2.2 = false) →
      (solveCands s r c maxT g hu idx avail children).panicked = false)
    ?_ ?_ ?_ ?_ ?_ ?_ ?_ ?_ ?_ ?_ ?_
  · intro s row col maxT g hc _ _
    rw [parallel_solve_cancelled s row col maxT g hc]
  · intro s row col maxT g hc hu hscan _ _
    rw [parallel_solve_deadEnd s row col maxT g (Bool.not_eq_true _ ▸ hc) hu hscan]
  · intro s row col maxT g hc hu r c hscan hmot2 hco hsb
    obtain ⟨hunset, _, hge, hbetween⟩ := scanFrom_branch_facts s row col r c hscan
    rw [parallel_solve_branch s row col maxT g r c (Bool.not_eq_true _ ▸ hc) hu hscan]
    apply hmot2 hco hunset
    intro r' c' hlt
    by_cases h : scanPos row col ≤ rmIdx r' c'
    · exact hbetween r' c' h hlt
    · exact hsb r' c' (by omega)
  · -- exhausted: impossible
    intro s row col maxT g hc hu hscan hco hsb
    exact absurd (not_exhausted_of_settledBefore s row col hco hu hsb hscan) not_false
  · intro s row col maxT g hc hnu _ _
    rw [parallel_solve_done s row col maxT g (Bool.not_eq_true _ ▸ hc) hnu]
  · -- impl
    intro s r c maxT g hu extra pre g1 tqa ea ov g2 hmot3 hco hunset hsb
    rw [parallel_solve_impl]
    exact hmot3 hco hunset hsb fun e he => absurd he (List.not_mem_nil _)
  · -- spawn
    intro s r c maxT g hu idx avail children h9 hflag state_copy hav child g'
      hmot1a hmot1b hmot3 hco hunset hsb hch
    have hco' : State.CountOk state_copy := State.CountOk_propagate s r c ⟨idx, h9⟩ hco hunset
    have hsb' : State.settledBefore state_copy (scanPos r.val (c.val + 1)) := by
      rw [scanPos_succ]
      exact settledBefore_propagate s r c ⟨idx, h9⟩ hsb
    have hchild : child.panicked = false := hmot1a hco' hsb'
    rw [solveCands_spawn s r c maxT g hu idx avail children h9 hflag hav]
    dsimp only
    apply hmot3 hco hunset hsb
    intro e he
    rcases List.mem_append.mp he with hmem | hmem
    · exact hch e hmem
    · rw [List.mem_singleton.mp hmem]
      exact hchild
  · -- sequential success
    intro s r c maxT g hu idx avail children h9 hflag state_copy hav out hsome
      hmot1 hco hunset hsb hch
    have hco' : State.CountOk state_copy := State.CountOk_propagate s r c ⟨idx, h9⟩ hco hunset
    have hsb' : State.settledBefore state_copy (scanPos r.val (c.val + 1)) := by
      rw [scanPos_succ]
      exact settledBefore_propagate s r c ⟨idx, h9⟩ hsb
    have hchild : out.panicked = false := hmot1 hco' hsb'
    have hout : out = parallel_solve state_copy r.val (c.val + 1) maxT g := rfl
    rw [solveCands_seq s r c maxT g hu idx avail children h9 hflag hav]
    dsimp only
    rw [← hout, if_pos hsome]
    exact hchild
  · -- sequential failure
    intro s r c maxT g hu idx avail children h9 hflag state_copy hav out hnotsome
      hmot1a hmot1b hmot3 hco hunset hsb hch
    have hco' : State.CountOk state_copy := State.CountOk_propagate s r c ⟨idx, h9⟩ hco hunset
    have hsb' : State.settledBefore state_copy (scanPos r.val (c.val + 1)) := by
      rw [scanPos_succ]
      exact settledBefore_propagate s r c ⟨idx, h9⟩ hsb
    have hchild : out.panicked = false := hmot1a hco' hsb'
    have hrest := hmot3 hco hunset hsb hch
    have hout : out = parallel_solve state_copy r.val (c.val + 1) maxT g := rfl
    rw [solveCands_seq s r c maxT g hu idx avail children h9 hflag hav]
    dsimp only
    rw [← hout, if_neg hnotsome]
    dsimp only
    rw [hchild, hrest]
    rfl
  · intro s r c maxT g hu idx avail children h9 hflagneg hmot3 hco hunset hsb hch
    rw [solveCands_skip s r c maxT g hu idx avail children h9 (Bool.not_eq_true _ ▸ hflagneg)]
    exact hmot3 hco hunset hsb hch
  · intro s r c maxT g hu idx avail children h9 hco hunset hsb hch
    rw [solveCands_join s r c maxT g hu idx avail children h9]
    exact joinLoop_panicked children g hch

/-- A compatible, flag-counted state has no invalid square, so the scan
never reports a dead end. -/
theorem no_deadEnd_of_compat (A : Fin 9 → Fin 9 → Fin 9) (s : State) (row col : Nat)
    (hC : Compat A s) (hFC : State.FlagsCounted s)
    (hscan : scanFrom s row col = ScanResult.deadEnd) : False := by
  obtain ⟨rb, cb, hunset, hbad⟩ := scanFrom_deadEnd_facts s row col hscan
  have hflag := (hC rb cb).2 hunset
  have hpos := Square.flagCount_pos _ _ hflag
  rw [Square.is_valid_eq_false_iff] at hbad
  have hfc := hFC rb cb
  omega

/-- Completeness of the sequential search: from a state satisfying the
invariants and compatible with a full valid assignment, the search with
`max_threads = 1` succeeds. -/
theorem parallel_solve_complete : ∀ (s : State) (row col : Nat) (maxT : Int) (g : GState),
    maxT = 1 → g.quota = 1 → g.cancelled = false →
    ∀ A : Fin 9 → Fin 9 → Fin 9, ValidAssign A → Compat A s → State.Inv s →
    State.settledBefore s (scanPos row col) →
    (parallel_solve s row col maxT g).found.isSome = true := by
  refine parallel_solve.induct
    (fun s row col maxT g => maxT = 1 → g.quota = 1 → g.cancelled = false →
      ∀ A : Fin 9 → Fin 9 → Fin 9, ValidAssign A → Compat A s → State.Inv s →
      State.settledBefore s (scanPos row col) →
      (parallel_solve s row col maxT g).found.isSome = true)
    (fun s r c maxT g hu => maxT = 1 → g.quota = 1 → g.cancelled = false →
      ∀ A : Fin 9 → Fin 9 → Fin 9, ValidAssign A → Compat A s → State.Inv s →
      ¬0 < (s.getSq r c).solution → State.settledBefore s (rmIdx r c) →
      (parallel_solve_impl s r c maxT g hu).found.isSome = true)
    (fun s r c maxT g hu idx avail children => maxT = 1 → g.quota = 1 → g.cancelled = false →
      ∀ A : Fin 9 → Fin 9 → Fin 9, ValidAssign A → Compat A s → State.Inv s →
      ¬0 < (s.getSq r c).solution → State.settledBefore s (rmIdx r c) →
      idx ≤ (A r c).val → avail ≤ 0 → children = [] →
      (solveCands s r c maxT g hu idx avail children).found.isSome = true)
    ?_ ?_ ?_ ?_ ?_ ?_ ?_ ?_ ?_ ?_ ?_
  · -- cancelled: contradicts the cancellation precondition
    intro s row col maxT g hc hmax hq hcanc A hVA hC hinv hsb
    exfalso
    rw [hcanc] at hc
    simp at hc
  · -- dead end: impossible in a compatible state
    intro s row col maxT g hc hu hscan hmax hq hcanc A hVA hC hinv hsb
    exact absurd (no_deadEnd_of_compat A s row col hC hinv.2.2.1 hscan) not_false
  · -- branch
    intro s row col maxT g hc hu r c hscan hmot2 hmax hq hcanc A hVA hC hinv hsb
    obtain ⟨hunset, _, hge, hbetween⟩ := scanFrom_branch_facts s row col r c hscan
    rw [parallel_solve_branch s row col maxT g r c (Bool.not_eq_true _ ▸ hc) hu hscan]
    apply hmot2 hmax hq hcanc A hVA hC hinv hunset
    intro r' c' hlt
    by_cases h : scanPos row col ≤ rmIdx r' c'
    · exact hbetween r' c' h hlt
    · exact hsb r' c' (by omega)
  · -- exhausted: impossible
    intro s row col maxT g hc hu hscan hmax hq hcanc A hVA hC hinv hsb
    exact absurd (not_exhausted_of_settledBefore s row col hinv.2.1 hu hsb hscan) not_false
  · -- terminal success
    intro s row col maxT g hc hnu hmax hq hcanc A hVA hC hinv hsb
    rw [parallel_solve_done s row col maxT g (Bool.not_eq_true _ ▸ hc) hnu]
    rfl
  · -- impl
    intro s r c maxT g hu extra pre g1 tqa ea ov g2 hmot3 hmax hq hcanc A hVA hC hinv
      hunset hsb
    have hflagA : (s.getSq r c).possible.get (A r c) = true := (hC r c).2 hunset
    have hnum : 0 < (s.getSq r c).num_possible := by
      have hpos := Square.flagCount_pos _ _ hflagA
      have hfc := hinv.2.2.1 r c
      omega
    have hg2q : g2.quota = g.quota + ((s.getSq r c).num_possible - 1)
        - max ((s.getSq r c).num_possible - 1
            - min (max (maxT - g.quota) 0) ((s.getSq r c).num_possible - 1)) 0 :=
      (alloc_g2_facts maxT g.quota ((s.getSq r c).num_possible - 1) g.cancelled).1
    have hg2c : g2.cancelled = g.cancelled :=
      (alloc_g2_facts maxT g.quota ((s.getSq r c).num_possible - 1) g.cancelled).2
    have heaval : ea = min (max (maxT - g.quota) 0) ((s.getSq r c).num_possible - 1) := rfl
    rw [hmax, hq] at hg2q heaval
    have hg2q1 : g2.quota = 1 := by
      rw [hg2q]
      omega
    have hg2c0 : g2.cancelled = false := by
      rw [hg2c]
      exact hcanc
    have hea : ea ≤ 0 := by
      rw [heaval]
      omega
    have hres := hmot3 hmax hg2q1 hg2c0 A hVA hC hinv hunset hsb (Nat.zero_le _) hea rfl
    rw [parallel_solve_impl]
    exact hres
  · -- spawn: impossible with no available threads
    intro s r c maxT g hu idx avail children h9 hflag state_copy hav child g'
      hmot1a hmot1b hmot3 hmax hq hcanc A hVA hC hinv hunset hsb hidxle hea hch
    exfalso
    omega
  · -- sequential success
    intro s r c maxT g hu idx avail children h9 hflag state_copy hav out hsome
      hmot1 hmax hq hcanc A hVA hC hinv hunset hsb hidxle hea hch
    have hout : out = parallel_solve state_copy r.val (c.val + 1) maxT g := rfl
    rw [solveCands_seq s r c maxT g hu idx avail children h9 hflag hav]
    dsimp only
    rw [← hout, if_pos hsome]
    exact hsome
  · -- sequential failure: loop on, or contradiction at the assignment's
    -- own candidate
    intro s r c maxT g hu idx avail children h9 hflag state_copy hav out hnotsome
      hmot1a hmot1b hmot3 hmax hq hcanc A hVA hC hinv hunset hsb hidxle hea hch
    by_cases hidx : idx = (A r c).val
    · exfalso
      have hAeq : (⟨idx, h9⟩ : Fin 9) = A r c := Fin.ext hidx
      have hflagA : (s.getSq r c).possible.get (A r c) = true := (hC r c).2 hunset
      rcases hps : s.propagate_solution r c (A r c) with ⟨s₁, bres⟩
      have hbres : bres = true := by
        have h' := State.propagate_true_of_compat A s r c hVA hC hinv.2.2.1
        rw [hps] at h'
        exact h'
      subst hbres
      have hstate : state_copy = s₁ := by
        rw [show state_copy = (s.propagate_solution r c ⟨idx, h9⟩).1 from rfl, hAeq, hps]
      have hinv1 : State.Inv s₁ :=
        State.Inv_propagate_true s s₁ r c (A r c) hinv hunset hflagA hps
      have hC1 : Compat A s₁ := by
        have h' := Compat_propagate A s r c hVA hC hunset
        rw [hps] at h'
        exact h'
      have hsb1 : State.settledBefore s₁ (scanPos r.val (c.val + 1)) := by
        rw [scanPos_succ]
        have h' := settledBefore_propagate s r c (A r c) hsb
        rw [hps] at h'
        exact h'
      have hchild := hmot1a hmax hq hcanc A hVA (by rw [hstate]; exact hC1)
        (by rw [hstate]; exact hinv1) (by rw [hstate]; exact hsb1)
      exact hnotsome hchild
    · have hlt : idx + 1 ≤ (A r c).val := Nat.lt_of_le_of_ne hidxle hidx
      have seqf := parallel_solve_seq_facts state_copy r.val (c.val + 1) maxT g hmax hq
      have houtq : out.g.quota = 1 := seqf.1
      have houtc : out.g.cancelled = false := by
        have h' := seqf.2.2 (found_eq_none_of_not_isSome out hnotsome)
        rw [h', hcanc]
      have hrest := hmot3 hmax houtq houtc A hVA hC hinv hunset hsb hlt hea hch
      have hout : out = parallel_solve state_copy r.val (c.val + 1) maxT g := rfl
      rw [solveCands_seq s r c maxT g hu idx avail children h9 hflag hav]
      dsimp only
      rw [← hout, if_neg hnotsome]
      dsimp only
      exact hrest
  · -- skip: the assignment's candidate is never skipped
    intro s r c maxT g hu idx avail children h9 hflagneg hmot3 hmax hq hcanc A hVA hC hinv
      hunset hsb hidxle hea hch
    by_cases hidx : idx = (A r c).val
    · exfalso
      have hAeq : (⟨idx, h9⟩ : Fin 9) = A r c := Fin.ext hidx
      have hflagA : (s.getSq r c).possible.get (A r c) = true := (hC r c).2 hunset
      rw [← hAeq] at hflagA
      exact hflagneg hflagA
    · have hlt : idx + 1 ≤ (A r c).val := Nat.lt_of_le_of_ne hidxle hidx
      rw [solveCands_skip s r c maxT g hu idx avail children h9
        (Bool.not_eq_true _ ▸ hflagneg)]
      exact hmot3 hmax hq hcanc A hVA hC hinv hunset hsb hlt hea hch
  · -- join: unreachable before the assignment's candidate
    intro s r c maxT g hu idx avail children h9 hmax hq hcanc A hVA hC hinv hunset hsb
      hidxle hea hch
    exfalso
    have := (A r c).isLt
    omega

/-- Forward run of the scan: when every square strictly before an
unsettled valid target is settled, a scan starting at or before the
target stops exactly there. -/
theorem scanFrom_skip_to (s : State) (rT cT : Fin 9)
    (hsb : ∀ r' c' : Fin 9, rmIdx r' c' < rmIdx rT cT → 0 < (s.getSq r' c').solution)
    (hunset : ¬0 < (s.getSq rT cT).solution) (hvalid : (s.getSq rT cT).is_valid = true) :
    ∀ row col : Nat, scanPos row col ≤ rmIdx rT cT →
    scanFrom s row col = ScanResult.branch rT cT := by
  intro row col
  induction row, col using scanFrom.induct s with
  | case1 row col h h1 hset ih =>
    intro hpos
    rw [scanFrom, dif_pos h, dif_pos h1, if_pos hset]
    apply ih
    have hne : rmIdx rT cT ≠ row * 9 + col := by
      intro he
      have hcv := cT.isLt
      have hr : rT = (⟨row, h⟩ : Fin 9) :=
        Fin.ext (show rT.val = row by simp only [rmIdx] at he; omega)
      have hc : cT = (⟨col, h1⟩ : Fin 9) :=
        Fin.ext (show cT.val = col by simp only [rmIdx] at he; omega)
      rw [hr, hc] at hunset
      exact hunset hset
    simp only [scanPos, rmIdx] at hpos hne ⊢
    omega
  | case2 row col h h1 hunset2 hval2 =>
    intro hpos
    rw [scanFrom, dif_pos h, dif_pos h1, if_neg hunset2, if_pos hval2]
    by_cases he : rmIdx rT cT = row * 9 + col
    · have hcv := cT.isLt
      have hr : rT = (⟨row, h⟩ : Fin 9) :=
        Fin.ext (show rT.val = row by simp only [rmIdx] at he; omega)
      have hc : cT = (⟨col, h1⟩ : Fin 9) :=
        Fin.ext (show cT.val = col by simp only [rmIdx] at he; omega)
      rw [hr, hc]
    · exfalso
      have hlt : rmIdx (⟨row, h⟩ : Fin 9) (⟨col, h1⟩ : Fin 9) < rmIdx rT cT := by
        simp only [scanPos, rmIdx] at hpos he ⊢
        omega
      exact hunset2 (hsb _ _ hlt)
  | case3 row col h h1 hunset3 hval3 =>
    intro hpos
    exfalso
    by_cases he : rmIdx rT cT = row * 9 + col
    · have hcv := cT.isLt
      have hr : rT = (⟨row, h⟩ : Fin 9) :=
        Fin.ext (show rT.val = row by simp only [rmIdx] at he; omega)
      have hc : cT = (⟨col, h1⟩ : Fin 9) :=
        Fin.ext (show cT.val = col by simp only [rmIdx] at he; omega)
      rw [hr, hc] at hvalid
      exact hval3 hvalid
    · have hlt : rmIdx (⟨row, h⟩ : Fin 9) (⟨col, h1⟩ : Fin 9) < rmIdx rT cT := by
        simp only [scanPos, rmIdx] at hpos he ⊢
        omega
      exact hunset3 (hsb _ _ hlt)
  | case4 row col h h1 ih =>
    intro hpos
    rw [scanFrom, dif_pos h, dif_neg h1]
    apply ih
    simp only [scanPos] at hpos ⊢
    omega
  | case5 row col h =>
    intro hpos
    exfalso
    have hr := rT.isLt
    have hc := cT.isLt
    simp only [scanPos, rmIdx] at hpos
    omega

/-- A scan whose cursor sits on an unsettled invalid square reports a
dead end at once. -/
theorem scanFrom_deadEnd_here (s : State) (row col : Nat) (h : row < 9) (h1 : col < 9)
    (hunset : ¬0 < (s.getSq ⟨row, h⟩ ⟨col, h1⟩).solution)
    (hval : (s.getSq ⟨row, h⟩ ⟨col, h1⟩).is_valid = false) :
    scanFrom s row col = ScanResult.deadEnd := by
  rw [scanFrom, dif_pos h, dif_pos h1, if_neg hunset, if_neg (by rw [hval]; simp)]

/-- Every square of the fresh board is unsettled with all candidates. -/
theorem initState_getSq (r c : Fin 9) :
    initState.getSq r c
      = { solution := 0, num_possible := 9, possible := Vector.replicate 9 true } := by
  unfold initState State.getSq
  rw [Vector.get_replicate, Vector.get_replicate]

/-- The fresh board of `main` satisfies all board invariants. -/
theorem initState_inv : State.Inv initState := by
  unfold State.Inv
  refine ⟨?_, ?_, ?_, ?_, ?_, ?_⟩
  · intro r c hs
    rw [initState_getSq] at hs
    exact absurd (show (0 : Int) < 0 from hs) (by omega)
  · unfold State.CountOk State.unsettledCount
    decide
  · unfold State.FlagsCounted
    decide
  · intro r c r' c' hp hs
    rw [initState_getSq] at hs
    exact absurd (show (0 : Int) < 0 from hs) (by omega)
  · intro r c r' c' i hp hsol
    rw [initState_getSq] at hsol
    have h0 : (0 : Int) = (i.val : Int) + 1 := hsol
    omega
  · intro r c
    left
    rw [initState_getSq]

/-- Every assignment is compatible with the fresh board. -/
theorem initState_compat (A : Fin 9 → Fin 9 → Fin 9) : Compat A initState := by
  intro r c
  rw [initState_getSq]
  constructor
  · intro h
    exact absurd (show (0 : Int) < 0 from h) (by omega)
  · intro _
    exact Vector.get_replicate true (A r c)

/-- Given-propagation succeeds on any suffix of givens the assignment
extends, starting from a compatible invariant state whose squares at and
after the cursor are unsettled; it preserves the invariants and
compatibility, keeps already-settled squares, and settles each given to
its clue. -/
theorem populateGivens_success (A : Fin 9 → Fin 9 → Fin 9) (hVA : ValidAssign A) :
    ∀ (givens : List (Option (Fin 9))) (s : State) (idx : Nat),
    idx + givens.length ≤ 81 →
    State.Inv s → Compat A s →
    (∀ k : Nat, ∀ hk : k < 81, idx ≤ k →
      ¬0 < (s.getSq (posR k hk) (posC k hk)).solution) →
    (∀ k : Nat, ∀ hk : k < 81, idx ≤ k → ∀ v : Fin 9,
      givens.getD (k - idx) none = some v → A (posR k hk) (posC k hk) = v) →
    ∃ s' : State, populateGivens s givens idx = (s', true) ∧
      State.Inv s' ∧ Compat A s' ∧
      (∀ r c : Fin 9, 0 < (s.getSq r c).solution → s'.getSq r c = s.getSq r c) ∧
      (∀ k : Nat, ∀ hk : k < 81, idx ≤ k → ∀ v : Fin 9,
        givens.getD (k - idx) none = some v →
        (s'.getSq (posR k hk) (posC k hk)).solution = (v.val : Int) + 1) := by
  intro givens
  induction givens with
  | nil =>
    intro s idx hlen hinv hC hunset hext
    refine ⟨s, rfl, hinv, hC, fun r c _ => rfl, ?_⟩
    intro k hk hik v hg
    simp [List.getD] at hg
  | cons hd tl ih =>
    intro s idx hlen hinv hC hunset hext
    cases hd with
    | none =>
      obtain ⟨s', heq, hinv', hC', hpres, hsolved⟩ := ih s (idx + 1)
        (by simp only [List.length_cons] at hlen; omega) hinv hC
        (fun k hk hik => hunset k hk (by omega))
        (fun k hk hik v hg => hext k hk (by omega) v (by
          rw [show k - idx = (k - (idx + 1)) + 1 from by omega, List.getD_cons_succ]
          exact hg))
      refine ⟨s', heq, hinv', hC', hpres, ?_⟩
      intro k hk hik v hg
      by_cases hki : k = idx
      · subst hki
        rw [Nat.sub_self] at hg
        simp [List.getD] at hg
      · rw [show k - idx = (k - (idx + 1)) + 1 from by omega, List.getD_cons_succ] at hg
        exact hsolved k hk (by omega) v hg
    | some v0 =>
      have hidx81 : idx < 81 := by
        simp only [List.length_cons] at hlen
        omega
      have hA : A (posR idx hidx81) (posC idx hidx81) = v0 := by
        apply hext idx hidx81 (le_refl idx) v0
        rw [Nat.sub_self]
        rfl
      have hunsetT := hunset idx hidx81 (le_refl idx)
      have hflagT : (s.getSq (posR idx hidx81) (posC idx hidx81)).possible.get v0 = true := by
        rw [← hA]
        exact (hC (posR idx hidx81) (posC idx hidx81)).2 hunsetT
      rcases hps : s.propagate_solution (posR idx hidx81) (posC idx hidx81) v0 with ⟨s₁, b⟩
      have hbtrue : b = true := by
        have h' := State.propagate_true_of_compat A s (posR idx hidx81) (posC idx hidx81)
          hVA hC hinv.2.2.1
        rw [hA, hps] at h'
        exact h'
      subst hbtrue
      have hinv1 : State.Inv s₁ :=
        State.Inv_propagate_true s s₁ (posR idx hidx81) (posC idx hidx81) v0
          hinv hunsetT hflagT hps
      have hC1 : Compat A s₁ := by
        have h' := Compat_propagate A s (posR idx hidx81) (posC idx hidx81) hVA hC hunsetT
        rw [hA, hps] at h'
        exact h'
      have hunset1 : ∀ k : Nat, ∀ hk : k < 81, idx + 1 ≤ k →
          ¬0 < (s₁.getSq (posR k hk) (posC k hk)).solution := by
        intro k hk hik
        have hne : ¬(posR k hk = posR idx hidx81 ∧ posC k hk = posC idx hidx81) := by
          intro he
          have e1 : k / 9 = idx / 9 := congrArg Fin.val he.1
          have e2 : k % 9 = idx % 9 := congrArg Fin.val he.2
          omega
        have hsol := (State.propagate_cellFacts s (posR idx hidx81) (posC idx hidx81) v0
          (posR k hk) (posC k hk) hne).1
        rw [hps] at hsol
        intro hpos
        rw [hsol] at hpos
        exact hunset k hk (by omega) hpos
      obtain ⟨s', heq, hinv', hC', hpres, hsolved⟩ := ih s₁ (idx + 1)
        (by simp only [List.length_cons] at hlen; omega) hinv1 hC1 hunset1
        (fun k hk hik v hg => hext k hk (by omega) v (by
          rw [show k - idx = (k - (idx + 1)) + 1 from by omega, List.getD_cons_succ]
          exact hg))
      have hpres1 : ∀ r c : Fin 9, 0 < (s.getSq r c).solution → s₁.getSq r c = s.getSq r c := by
        intro r c hsc
        have h' := State.propagate_settled_preserved s (posR idx hidx81) (posC idx hidx81) v0
          r c hinv.1 hunsetT hsc
        rw [hps] at h'
        exact h'
      have htar : s₁.getSq (posR idx hidx81) (posC idx hidx81)
          = { solution := (v0.val : Int) + 1, num_possible := 0
              possible := Vector.replicate 9 false } := by
        have h' := State.propagate_target s (posR idx hidx81) (posC idx hidx81) v0
        rw [hps] at h'
        exact h'
      refine ⟨s', ?_, hinv', hC', ?_, ?_⟩
      · rw [populateGivens, dif_pos hidx81, hps]
        exact heq
      · intro r c hsc
        rw [← hpres1 r c hsc]
        apply hpres r c
        rw [hpres1 r c hsc]
        exact hsc
      · intro k hk hik v hg
        by_cases hki : k = idx
        · subst hki
          rw [Nat.sub_self] at hg
          have hg' : some v0 = some v := hg
          injection hg' with hv
          subst hv
          have hset1 : 0 < (s₁.getSq (posR k hk) (posC k hk)).solution := by
            rw [show (s₁.getSq (posR k hk) (posC k hk)).solution
                = ((v0.val : Int) + 1) from by rw [htar]]
            omega
          rw [hpres _ _ hset1]
          rw [show s₁.getSq (posR k hk) (posC k hk)
              = s₁.getSq (posR k hidx81) (posC k hidx81) from rfl, htar]
        · rw [show k - idx = (k - (idx + 1)) + 1 from by omega, List.getD_cons_succ] at hg
          exact hsolved k hk (by omega) v hg

/-- With an accurate count, a board whose `unsolved_squares` reached zero
is fully settled. -/
theorem State.all_settled_of (b : State) (hco : State.CountOk b)
    (h0 : b.unsolved_squares = 0) : ∀ r c : Fin 9, 0 < (b.getSq r c).solution := by
  intro r c
  by_contra hns
  have hpos := State.unsettledCount_pos_of b r c hns
  unfold State.CountOk at hco
  omega

/-- A fully settled invariant board determines a valid assignment it
agrees with. -/
theorem exists_assign_of_settled (b : State) (hinv : State.Inv b)
    (h0 : b.unsolved_squares = 0) :
    ∃ B : Fin 9 → Fin 9 → Fin 9, ValidAssign B ∧
      ∀ r c : Fin 9, (b.getSq r c).solution = ((B r c).val : Int) + 1 := by
  have hall := State.all_settled_of b hinv.2.1 h0
  have hex : ∀ r c : Fin 9, ∃ i : Fin 9, (b.getSq r c).solution = (i.val : Int) + 1 := by
    intro r c
    rcases hinv.2.2.2.2.2 r c with h | h
    · exact absurd (hall r c) (by rw [h]; omega)
    · exact h
  choose B hB using hex
  refine ⟨B, ?_, hB⟩
  intro r c r' c' hp
  have hnc := hinv.2.2.2.1 r c r' c' hp (hall r c) (hall r' c')
  intro hBe
  apply hnc
  rw [hB, hB, hBe]

/-- Number of squares of row `r` settled to the value with candidate
index `v` (the spec's "each value exactly once per row" counter). -/
def valueCountRow (s : State) (r v : Fin 9) : Nat :=
  (Finset.univ.filter fun c : Fin 9 => (s.getSq r c).solution = (v.val : Int) + 1).card

/-- Number of squares of column `c` settled to the value with candidate
index `v`. -/
def valueCountCol (s : State) (c v : Fin 9) : Nat :=
  (Finset.univ.filter fun r : Fin 9 => (s.getSq r c).solution = (v.val : Int) + 1).card

/-- Number of squares of the 3 x 3 sub-board at block coordinates
`(br, bc)` settled to the value with candidate index `v`. -/
def valueCountBlock (s : State) (br bc : Fin 3) (v : Fin 9) : Nat :=
  (Finset.univ.filter fun p : Fin 3 × Fin 3 =>
    (s.getSq ⟨br.val * 3 + p.1.val, by omega⟩ ⟨bc.val * 3 + p.2.val, by omega⟩).solution
      = (v.val : Int) + 1).card

/-- The spec's notion of a valid complete Sudoku solution: every square
settled to a value in 1..9, and every row, column and 3 x 3 sub-board
contains each value exactly once. -/
def isCompleteSolution (s : State) : Prop :=
  (∀ r c : Fin 9, ∃ i : Fin 9, (s.getSq r c).solution = (i.val : Int) + 1) ∧
  (∀ r v : Fin 9, valueCountRow s r v = 1) ∧
  (∀ c v : Fin 9, valueCountCol s c v = 1) ∧
  (∀ br bc : Fin 3, ∀ v : Fin 9, valueCountBlock s br bc v = 1)

/-- A uniquely satisfied decidable predicate has a one-element filter. -/
theorem card_filter_eq_one_of_existsUnique {α : Type} [Fintype α] [DecidableEq α]
    (p : α → Prop) [DecidablePred p] (h : ∃! a, p a) :
    (Finset.univ.filter p).card = 1 := by
  obtain ⟨a, ha, huniq⟩ := h
  have hset : Finset.univ.filter p = {a} := by
    ext x
    simp only [Finset.mem_filter, Finset.mem_univ, true_and, Finset.mem_singleton]
    exact ⟨fun hx => huniq x hx, fun hx => hx ▸ ha⟩
  rw [hset, Finset.card_singleton]

/-- An injective self-map of `Fin 9` hits every value exactly once. -/
theorem fin9_inj_existsUnique (f : Fin 9 → Fin 9) (hinj : Function.Injective f)
    (v : Fin 9) : ∃! c, f c = v := by
  obtain ⟨c, hc⟩ := Finite.surjective_of_injective hinj v
  exact ⟨c, hc, fun c' hc' => hinj (hc'.trans hc.symm)⟩

/-- An injective map from the block index square into `Fin 9` hits every
value exactly once. -/
theorem block_inj_existsUnique (f : Fin 3 × Fin 3 → Fin 9) (hinj : Function.Injective f)
    (v : Fin 9) : ∃! p, f p = v := by
  have hbij : Function.Bijective f := by
    rw [Fintype.bijective_iff_injective_and_card]
    exact ⟨hinj, by simp⟩
  obtain ⟨p, hp⟩ := hbij.2 v
  exact ⟨p, hp, fun p' hp' => hinj (hp'.trans hp.symm)⟩

/-- A fully settled board satisfying the invariants is a valid complete
Sudoku solution. -/
theorem isCompleteSolution_of_inv (b : State) (hinv : State.Inv b)
    (h0 : b.unsolved_squares = 0) : isCompleteSolution b := by
  obtain ⟨B, hVB, hB⟩ := exists_assign_of_settled b hinv h0
  have hval : ∀ r c v : Fin 9,
      ((b.getSq r c).solution = (v.val : Int) + 1 ↔ B r c = v) := by
    intro r c v
    rw [hB]
    constructor
    · intro h
      exact Fin.ext (by omega)
    · intro h
      rw [h]
  refine ⟨fun r c => ⟨B r c, hB r c⟩, ?_, ?_, ?_⟩
  · intro r v
    unfold valueCountRow
    apply card_filter_eq_one_of_existsUnique
    have hinj : Function.Injective fun c => B r c := by
      intro c c' he
      by_contra hne
      exact hVB r c r c' ⟨fun hand => hne hand.2.symm, Or.inl rfl⟩ he
    obtain ⟨c₀, hc₀, hu⟩ := fin9_inj_existsUnique (fun c => B r c) hinj v
    exact ⟨c₀, (hval r c₀ v).mpr hc₀, fun c' hc' => hu c' ((hval r c' v).mp hc')⟩
  · intro c v
    unfold valueCountCol
    apply card_filter_eq_one_of_existsUnique
    have hinj : Function.Injective fun r => B r c := by
      intro r r' he
      by_contra hne
      exact hVB r c r' c ⟨fun hand => hne hand.1.symm, Or.inr (Or.inl rfl)⟩ he
    obtain ⟨r₀, hr₀, hu⟩ := fin9_inj_existsUnique (fun r => B r c) hinj v
    exact ⟨r₀, (hval r₀ c v).mpr hr₀, fun r' hr' => hu r' ((hval r' c v).mp hr')⟩
  · intro br bc v
    unfold valueCountBlock
    apply card_filter_eq_one_of_existsUnique
    have hinj : Function.Injective fun p : Fin 3 × Fin 3 =>
        B ⟨br.val * 3 + p.1.val, by omega⟩ ⟨bc.val * 3 + p.2.val, by omega⟩ := by
      intro p p' he
      by_contra hne
      have hpne : ¬(p'.1.val = p.1.val ∧ p'.2.val = p.2.val) := by
        intro hand
        apply hne
        exact Prod.ext (Fin.ext hand.1.symm) (Fin.ext hand.2.symm)
      refine hVB ⟨br.val * 3 + p.1.val, by omega⟩ ⟨bc.val * 3 + p.2.val, by omega⟩
        ⟨br.val * 3 + p'.1.val, by omega⟩ ⟨bc.val * 3 + p'.2.val, by omega⟩ ⟨?_, ?_⟩ he
      · intro hand
        apply hpne
        have e1 : br.val * 3 + p'.1.val = br.val * 3 + p.1.val := congrArg Fin.val hand.1
        have e2 : bc.val * 3 + p'.2.val = bc.val * 3 + p.2.val := congrArg Fin.val hand.2
        omega
      · right
        right
        unfold State.sub_board_offset
        constructor
        · show (br.val * 3 + p'.1.val) / 3 = (br.val * 3 + p.1.val) / 3
          omega
        · show (bc.val * 3 + p'.2.val) / 3 = (bc.val * 3 + p.2.val) / 3
          omega
    obtain ⟨p₀, hp₀, hu⟩ := block_inj_existsUnique _ hinj v
    exact ⟨p₀, (hval _ _ v).mpr hp₀, fun p' hp' => hu p' ((hval _ _ v).mp hp')⟩

/-- `propagate_solution` on an unsettled target keeps settled squares'
candidate sets empty, on early-return paths as well. -/
theorem State.SettledEmpty_propagate (s : State) (r c i : Fin 9)
    (hse : State.SettledEmpty s) (htgt : ¬0 < (s.getSq r c).solution) :
    State.SettledEmpty ((s.propagate_solution r c i).1) := by
  intro r' c' hs'
  by_cases hA : r' = r ∧ c' = c
  · obtain ⟨e1, e2⟩ := hA
    subst e1
    subst e2
    rw [State.propagate_target]
    exact ⟨rfl, fun j => Vector.get_replicate false j⟩
  · have hsol := (State.propagate_cellFacts s r c i r' c' hA).1
    rw [hsol] at hs'
    rw [State.propagate_flagFalse_cell s r c i r' c' hA ((hse r' c' hs').2 i)]
    exact hse r' c' hs'

/-- Boards reachable from the fresh start by settle calls that are
consistent with peer constraints: each call settles an unsettled square
to a still-possible candidate whose value no settled peer carries (the
returned validity flag is ignored, as at line 187 of the source). -/
inductive ReachableBySettles : State → Prop where
  | init : ReachableBySettles initState
  | step (s : State) (r c i : Fin 9) :
      ReachableBySettles s →
      ¬0 < (s.getSq r c).solution →
      (s.getSq r c).possible.get i = true →
      (∀ r' c' : Fin 9, isPeer r c r' c' →
        (s.getSq r' c').solution ≠ (i.val : Int) + 1) →
      ReachableBySettles ((s.propagate_solution r c i).1)

/-- Boards reachable from the fresh start by settle calls on unsettled
squares with still-possible candidates where every call reported
validity. -/
inductive ReachableByValidSettles : State → Prop where
  | init : ReachableByValidSettles initState
  | step (s s' : State) (r c i : Fin 9) :
      ReachableByValidSettles s →
      ¬0 < (s.getSq r c).solution →
      (s.getSq r c).possible.get i = true →
      s.propagate_solution r c i = (s', true) →
      ReachableByValidSettles s'

/-- Boards reachable by settles that all reported validity satisfy the
full board invariant. -/
theorem Inv_of_reachableByValidSettles (s : State) (h : ReachableByValidSettles s) :
    State.Inv s := by
  induction h with
  | init => exact initState_inv
  | step s s' r c i hr htgt hflag hps ih =>
    exact State.Inv_propagate_true s s' r c i ih htgt hflag hps

/-- The stale-candidate construction: fill row 1 with 3..9, settle
`(0, 1) = 2`, then settle `(1, 0) = 1`, whose clearing loop dies at
`(1, 1)` before reaching column 0. -/
def c8s1 : State := (initState.propagate_solution 1 2 2).1

def c8s2 : State := (c8s1.propagate_solution 1 3 3).1

def c8s3 : State := (c8s2.propagate_solution 1 4 4).1

def c8s4 : State := (c8s3.propagate_solution 1 5 5).1

def c8s5 : State := (c8s4.propagate_solution 1 6 6).1

def c8s6 : State := (c8s5.propagate_solution 1 7 7).1

def c8s7 : State := (c8s6.propagate_solution 1 8 8).1

def c8s8 : State := (c8s7.propagate_solution 0 1 1).1

def c8s9 : State := (c8s8.propagate_solution 1 0 0).1

/-- The stale-candidate state is reachable by consistent settles. -/
theorem c8s9_reachable : ReachableBySettles c8s9 := by
  have h0 : ReachableBySettles initState := ReachableBySettles.init
  have h1 : ReachableBySettles c8s1 :=
    ReachableBySettles.step initState 1 2 2 h0 (by decide) (by decide) (by decide)
  have h2 : ReachableBySettles c8s2 :=
    ReachableBySettles.step c8s1 1 3 3 h1 (by decide) (by decide) (by decide)
  have h3 : ReachableBySettles c8s3 :=
    ReachableBySettles.step c8s2 1 4 4 h2 (by decide) (by decide) (by decide)
  have h4 : ReachableBySettles c8s4 :=
    ReachableBySettles.step c8s3 1 5 5 h3 (by decide) (by decide) (by decide)
  have h5 : ReachableBySettles c8s5 :=
    ReachableBySettles.step c8s4 1 6 6 h4 (by decide) (by decide) (by decide)
  have h6 : ReachableBySettles c8s6 :=
    ReachableBySettles.step c8s5 1 7 7 h5 (by decide) (by decide) (by decide)
  have h7 : ReachableBySettles c8s7 :=
    ReachableBySettles.step c8s6 1 8 8 h6 (by decide) (by decide) (by decide)
  have h8 : ReachableBySettles c8s8 :=
    ReachableBySettles.step c8s7 0 1 1 h7 (by decide) (by decide) (by decide)
  exact ReachableBySettles.step c8s8 1 0 0 h8 (by decide) (by decide) (by decide)

/-- 80 givens forming a defective near-grid: row 0 starts `1 1 3 4 ...`
(the value 1 twice), every propagation during population nevertheless
reports validity, and only square `(8, 8)` is left open. -/
def c7givens : List (Option (Fin 9)) :=
  [some 0, some 0, some 2, some 3, some 4, some 5, some 6, some 7, some 8,
   some 3, some 4, some 5, some 6, some 7, some 8, some 0, some 1, some 2,
   some 6, some 7, some 8, some 0, some 1, some 2, some 3, some 4, some 5,
   some 1, some 2, some 3, some 4, some 5, some 6, some 7, some 8, some 0,
   some 4, some 5, some 6, some 7, some 8, some 0, some 1, some 2, some 3,
   some 7, some 8, some 0, some 1, some 2, some 3, some 4, some 5, some 6,
   some 2, some 3, some 4, some 5, some 6, some 7, some 8, some 0, some 1,
   some 5, some 6, some 7, some 8, some 0, some 1, some 2, some 3, some 4,
   some 8, some 0, some 1, some 2, some 3, some 4, some 5, some 6, none]

/-- The state `populate_board_using_input` builds from the defective
givens (population succeeds on them). -/
def c7state : State := (populate_board_using_input c7givens).1

/-- The board the search reports from the defective state: square
`(8, 8)` settled to its single remaining candidate 8. -/
def c7final : State := (c7state.propagate_solution 8 8 7).1

/-- Population of the defective givens fires no assertion. -/
theorem c7_populate_ok : (populate_board_using_input c7givens).2 = true := by decide

/-- Running the search on the defective state with one worker reports the
defective completed board. -/
theorem c7_run : (parallel_solve c7state 0 0 1 ⟨1, false⟩).found = some c7final := by
  have hu : (0 : Int) < c7state.unsolved_squares := by decide
  have hscan : scanFrom c7state 0 0 = ScanResult.branch 8 8 :=
    scanFrom_skip_to c7state 8 8 (by decide) (by decide) (by decide) 0 0 (by decide)
  rw [parallel_solve_branch c7state 0 0 1 ⟨1, false⟩ 8 8 rfl hu hscan]
  rw [parallel_solve_impl_eq]
  show (solveCands c7state 8 8 1 ⟨1, false⟩ hu 0 0 []).found = some c7final
  rw [solveCands_skip c7state 8 8 1 ⟨1, false⟩ hu 0 0 [] (by omega) (by decide)]
  rw [solveCands_skip c7state 8 8 1 ⟨1, false⟩ hu 1 0 [] (by omega) (by decide)]
  rw [solveCands_skip c7state 8 8 1 ⟨1, false⟩ hu 2 0 [] (by omega) (by decide)]
  rw [solveCands_skip c7state 8 8 1 ⟨1, false⟩ hu 3 0 [] (by omega) (by decide)]
  rw [solveCands_skip c7state 8 8 1 ⟨1, false⟩ hu 4 0 [] (by omega) (by decide)]
  rw [solveCands_skip c7state 8 8 1 ⟨1, false⟩ hu 5 0 [] (by omega) (by decide)]
  rw [solveCands_skip c7state 8 8 1 ⟨1, false⟩ hu 6 0 [] (by omega) (by decide)]
  rw [solveCands_seq c7state 8 8 1 ⟨1, false⟩ hu 7 0 [] (by omega)
    (show (c7state.getSq 8 8).possible.get 7 = true by decide) (by omega)]
  rw [parallel_solve_done ((c7state.propagate_solution 8 8 ⟨7, by omega⟩).1) (8 : Fin 9).val
    ((8 : Fin 9).val + 1) 1 ⟨1, false⟩ rfl
    (show ¬0 < ((c7state.propagate_solution 8 8 7).1).unsolved_squares by decide)]
  rfl

/-- The reported board repeats the value 1 in row 0: it is not a valid
complete solution. -/
theorem c7_not_complete : ¬isCompleteSolution c7final := by
  intro h
  have hrow := h.2.1 0 0
  rw [show valueCountRow c7final 0 0 = 2 from by decide] at hrow
  exact absurd hrow (by omega)


/-- A settled filler square for hand-built states. -/
def junkSquare : Square :=
  { solution := 5, num_possible := 0, possible := Vector.replicate 9 false }

/-- Branch-point state for the allocator: square `(0, 0)` has the three
candidates 1, 2, 3; every other square is settled. -/
def c4cell : Square :=
  { solution := 0, num_possible := 3
    possible := ⟨[true, true, true, false, false, false, false, false, false], rfl⟩ }

def c4state : State :=
  { unsolved_squares := 1
    board := (Vector.replicate 9 (Vector.replicate 9 junkSquare)).set 0
      ((Vector.replicate 9 junkSquare).set 0 c4cell) }

def c4sc0 : State := (c4state.propagate_solution 0 0 0).1

/-- Full run of `parallel_solve_impl` at the three-candidate branch point
with ample `max_threads`: only two workers are spawned (the allocator
requested `num_possible - 1` threads), the third candidate runs
sequentially. -/
theorem c4_run : parallel_solve_impl c4state 0 0 100 ⟨1, false⟩
      (show (0 : Int) < c4state.unsolved_squares by decide)
    = ⟨some c4sc0, ⟨1, true⟩, true, false, 2, 2⟩ := by
  have HU : (0 : Int) < c4state.unsolved_squares := by decide
  have h90 : (0 : Nat) < 9 := by omega
  have h91 : (1 : Nat) < 9 := by omega
  have h92 : (2 : Nat) < 9 := by omega
  have hd1 : parallel_solve ((c4state.propagate_solution 0 0 ⟨0, h90⟩).1) (0 : Fin 9).val
      ((0 : Fin 9).val + 1) 100 ⟨3, false⟩
      = ⟨some ((c4state.propagate_solution 0 0 ⟨0, h90⟩).1), ⟨3, true⟩, false, false, 0, 0⟩ :=
    parallel_solve_done _ _ _ _ _ rfl
      (show ¬0 < ((c4state.propagate_solution 0 0 0).1).unsolved_squares by decide)
  have hd2 : parallel_solve ((c4state.propagate_solution 0 0 ⟨1, h91⟩).1) (0 : Fin 9).val
      ((0 : Fin 9).val + 1) 100 ⟨2, true⟩ = ⟨none, ⟨2, true⟩, false, false, 0, 0⟩ :=
    parallel_solve_cancelled _ _ _ _ _ rfl
  have hd3 : parallel_solve ((c4state.propagate_solution 0 0 ⟨2, h92⟩).1) (0 : Fin 9).val
      ((0 : Fin 9).val + 1) 100 ⟨1, true⟩ = ⟨none, ⟨1, true⟩, false, false, 0, 0⟩ :=
    parallel_solve_cancelled _ _ _ _ _ rfl
  have hL3 : solveCands c4state 0 0 100 ⟨1, true⟩ HU 3 0
      [(some ((c4state.propagate_solution 0 0 ⟨0, h90⟩).1), false, false), (none, false, false)]
      = ⟨some ((c4state.propagate_solution 0 0 ⟨0, h90⟩).1), ⟨1, true⟩, true, false, 0, 0⟩ := by
    rw [solveCands_skip c4state 0 0 100 ⟨1, true⟩ HU 3 0 _ (by omega)
      (show (c4state.getSq 0 0).possible.get 3 = false by decide)]
    rw [solveCands_skip c4state 0 0 100 ⟨1, true⟩ HU 4 0 _ (by omega)
      (show (c4state.getSq 0 0).possible.get 4 = false by decide)]
    rw [solveCands_skip c4state 0 0 100 ⟨1, true⟩ HU 5 0 _ (by omega)
      (show (c4state.getSq 0 0).possible.get 5 = false by decide)]
    rw [solveCands_skip c4state 0 0 100 ⟨1, true⟩ HU 6 0 _ (by omega)
      (show (c4state.getSq 0 0).possible.get 6 = false by decide)]
    rw [solveCands_skip c4state 0 0 100 ⟨1, true⟩ HU 7 0 _ (by omega)
      (show (c4state.getSq 0 0).possible.get 7 = false by decide)]
    rw [solveCands_skip c4state 0 0 100 ⟨1, true⟩ HU 8 0 _ (by omega)
      (show (c4state.getSq 0 0).possible.get 8 = false by decide)]
    rw [solveCands_join c4state 0 0 100 ⟨1, true⟩ HU 9 0 _ (by omega)]
    rfl
  have hL2 : solveCands c4state 0 0 100 ⟨1, true⟩ HU 2 0
      [(some ((c4state.propagate_solution 0 0 ⟨0, h90⟩).1), false, false), (none, false, false)]
      = ⟨some ((c4state.propagate_solution 0 0 ⟨0, h90⟩).1), ⟨1, true⟩, true, false, 0, 0⟩ := by
    rw [solveCands_seq c4state 0 0 100 ⟨1, true⟩ HU 2 0 _ h92
      (show (c4state.getSq 0 0).possible.get 2 = true by decide) (by omega)]
    rw [hd3]
    dsimp only
    rw [Option.isSome_none, if_neg (by decide)]
    rw [hL3]
    rfl
  have hL1 : solveCands c4state 0 0 100 ⟨2, true⟩ HU 1 1
      [(some ((c4state.propagate_solution 0 0 ⟨0, h90⟩).1), false, false)]
      = ⟨some ((c4state.propagate_solution 0 0 ⟨0, h90⟩).1), ⟨1, true⟩, true, false, 1, 1⟩ := by
    rw [solveCands_spawn c4state 0 0 100 ⟨2, true⟩ HU 1 1 _ h91
      (show (c4state.getSq 0 0).possible.get 1 = true by decide) (by omega)]
    rw [hd2]
    dsimp only
    show ({ solveCands c4state 0 0 100 ⟨1, true⟩ HU 2 0
          [(some ((c4state.propagate_solution 0 0 ⟨0, h90⟩).1), false, false),
            (none, false, false)] with
        spawned := 0 + 1 + (solveCands c4state 0 0 100 ⟨1, true⟩ HU 2 0
          [(some ((c4state.propagate_solution 0 0 ⟨0, h90⟩).1), false, false),
            (none, false, false)]).spawned
        localSpawned := (solveCands c4state 0 0 100 ⟨1, true⟩ HU 2 0
          [(some ((c4state.propagate_solution 0 0 ⟨0, h90⟩).1), false, false),
            (none, false, false)]).localSpawned + 1 } : SolveOut)
      = ⟨some ((c4state.propagate_solution 0 0 ⟨0, h90⟩).1), ⟨1, true⟩, true, false, 1, 1⟩
    rw [hL2]
    rfl
  rw [parallel_solve_impl_eq]
  show solveCands c4state 0 0 100 ⟨3, false⟩ HU 0 2 []
    = ⟨some c4sc0, ⟨1, true⟩, true, false, 2, 2⟩
  rw [solveCands_spawn c4state 0 0 100 ⟨3, false⟩ HU 0 2 [] h90
    (show (c4state.getSq 0 0).possible.get 0 = true by decide) (by omega)]
  rw [hd1]
  dsimp only
  show ({ solveCands c4state 0 0 100 ⟨2, true⟩ HU 1 1
        [(some ((c4state.propagate_solution 0 0 ⟨0, h90⟩).1), false, false)] with
      spawned := 0 + 1 + (solveCands c4state 0 0 100 ⟨2, true⟩ HU 1 1
        [(some ((c4state.propagate_solution 0 0 ⟨0, h90⟩).1), false, false)]).spawned
      localSpawned := (solveCands c4state 0 0 100 ⟨2, true⟩ HU 1 1
        [(some ((c4state.propagate_solution 0 0 ⟨0, h90⟩).1), false, false)]).localSpawned
        + 1 } : SolveOut)
    = ⟨some c4sc0, ⟨1, true⟩, true, false, 2, 2⟩
  rw [hL1]
  rfl

/-- Branch-point state for the join behaviour: square `(0, 0)` has the
candidates 1 and 2, square `(0, 1)` only the candidate 1, the rest is
settled.  Trying 1 at `(0, 0)` dead-ends; trying 2 then succeeds. -/
def c5cellA : Square :=
  { solution := 0, num_possible := 2
    possible := ⟨[true, true, false, false, false, false, false, false, false], rfl⟩ }

def c5cellB : Square :=
  { solution := 0, num_possible := 1
    possible := ⟨[true, false, false, false, false, false, false, false, false], rfl⟩ }

def c5state : State :=
  { unsolved_squares := 2
    board := (Vector.replicate 9 (Vector.replicate 9 junkSquare)).set 0
      (((Vector.replicate 9 junkSquare).set 0 c5cellA).set 1 c5cellB) }

def c5sc01 : State := (c5state.propagate_solution 0 0 1).1

def c5sol : State := (c5sc01.propagate_solution 0 1 0).1


/-- The spawned worker for candidate 1 dead-ends at once: settling 1 at
`(0, 0)` empties the candidate set of `(0, 1)`. -/
theorem c5_child : parallel_solve ((c5state.propagate_solution 0 0 ⟨0, by omega⟩).1)
    (0 : Fin 9).val ((0 : Fin 9).val + 1) 2 ⟨2, false⟩
    = ⟨none, ⟨2, false⟩, false, false, 0, 0⟩ :=
  parallel_solve_deadEnd _ _ _ _ _ rfl
    (show (0 : Int) < ((c5state.propagate_solution 0 0 0).1).unsolved_squares by decide)
    (show scanFrom ((c5state.propagate_solution 0 0 0).1) (0 : Fin 9).val
        ((0 : Fin 9).val + 1) = ScanResult.deadEnd from
      scanFrom_deadEnd_here _ _ _ (by decide) (by decide) (by decide) (by decide))

/-- After settling candidate 2 at `(0, 0)`, the scan stops at `(0, 1)`. -/
theorem c5_scan01 : scanFrom ((c5state.propagate_solution 0 0 ⟨1, by omega⟩).1)
    (0 : Fin 9).val ((0 : Fin 9).val + 1) = ScanResult.branch 0 1 :=
  show scanFrom c5sc01 (0 : Fin 9).val ((0 : Fin 9).val + 1) = ScanResult.branch 0 1 from
    scanFrom_skip_to c5sc01 0 1 (by decide) (by decide) (by decide) _ _ (by decide)

/-- The grandchild call after settling `(0, 1)` holds a finished board. -/
theorem c5_done : parallel_solve
    ((((c5state.propagate_solution 0 0 ⟨1, by omega⟩).1).propagate_solution 0 1
      ⟨0, by omega⟩).1)
    (0 : Fin 9).val ((1 : Fin 9).val + 1) 2 ⟨1, false⟩
    = ⟨some ((((c5state.propagate_solution 0 0 ⟨1, by omega⟩).1).propagate_solution 0 1
        ⟨0, by omega⟩).1), ⟨1, true⟩, false, false, 0, 0⟩ :=
  parallel_solve_done _ _ _ _ _ rfl
    (show ¬0 < ((c5sc01.propagate_solution 0 1 0).1).unsolved_squares by decide)

/-- The candidate loop of the inner branch point settles `(0, 1)`
sequentially and succeeds. -/
theorem c5_inner : solveCands ((c5state.propagate_solution 0 0 ⟨1, by omega⟩).1) 0 1 2
    ⟨1, false⟩ (show (0 : Int) < c5sc01.unsolved_squares by decide) 0 0 []
    = ⟨some ((((c5state.propagate_solution 0 0 ⟨1, by omega⟩).1).propagate_solution 0 1
        ⟨0, by omega⟩).1), ⟨1, true⟩, false, false, 0, 0⟩ := by
  rw [solveCands_seq ((c5state.propagate_solution 0 0 ⟨1, by omega⟩).1) 0 1 2 ⟨1, false⟩
    (show (0 : Int) < c5sc01.unsolved_squares by decide) 0 0 [] (by omega)
    (show (c5sc01.getSq 0 1).possible.get 0 = true by decide) (by omega)]
  rw [c5_done]
  rfl

/-- The sequential try of candidate 2 at `(0, 0)` succeeds. -/
theorem c5_out : parallel_solve ((c5state.propagate_solution 0 0 ⟨1, by omega⟩).1)
    (0 : Fin 9).val ((0 : Fin 9).val + 1) 2 ⟨1, false⟩
    = ⟨some ((((c5state.propagate_solution 0 0 ⟨1, by omega⟩).1).propagate_solution 0 1
        ⟨0, by omega⟩).1), ⟨1, true⟩, false, false, 0, 0⟩ := by
  rw [parallel_solve_branch ((c5state.propagate_solution 0 0 ⟨1, by omega⟩).1)
    (0 : Fin 9).val ((0 : Fin 9).val + 1) 2 ⟨1, false⟩ 0 1 rfl
    (show (0 : Int) < ((c5state.propagate_solution 0 0 ⟨1, by omega⟩).1).unsolved_squares from
      (by decide : (0 : Int) < c5sc01.unsolved_squares)) c5_scan01]
  rw [parallel_solve_impl_eq]
  exact c5_inner

/-- The outer candidate loop from index 1 with an already-spawned worker:
the sequential success returns at once, flagging the dropped handle. -/
theorem c5_L1 : solveCands c5state 0 0 2 ⟨1, false⟩
    (show (0 : Int) < c5state.unsolved_squares by decide) 1 0 [(none, false, false)]
    = ⟨some c5sol, ⟨1, true⟩, true, false, 0, 0⟩ := by
  rw [solveCands_seq c5state 0 0 2 ⟨1, false⟩
    (show (0 : Int) < c5state.unsolved_squares by decide) 1 0 [(none, false, false)]
    (by omega) (show (c5state.getSq 0 0).possible.get 1 = true by decide) (by omega)]
  rw [c5_out]
  rfl

/-- Full run of `parallel_solve_impl` at the two-candidate branch point
with `max_threads = 2`: candidate 1 is spawned as a worker and fails;
candidate 2 runs sequentially and succeeds, returning at once — the
spawned worker's handle is dropped without a join (`leaked`). -/
theorem c5_run : parallel_solve_impl c5state 0 0 2 ⟨1, false⟩
      (show (0 : Int) < c5state.unsolved_squares by decide)
    = ⟨some c5sol, ⟨1, true⟩, true, false, 1, 1⟩ := by
  rw [parallel_solve_impl_eq]
  show solveCands c5state 0 0 2 ⟨2, false⟩
    (show (0 : Int) < c5state.unsolved_squares by decide) 0 1 []
    = ⟨some c5sol, ⟨1, true⟩, true, false, 1, 1⟩
  rw [solveCands_spawn c5state 0 0 2 ⟨2, false⟩
    (show (0 : Int) < c5state.unsolved_squares by decide) 0 1 [] (by omega)
    (show (c5state.getSq 0 0).possible.get 0 = true by decide) (by omega)]
  rw [c5_child]
  dsimp only
  show ({ solveCands c5state 0 0 2 ⟨1, false⟩
      (show (0 : Int) < c5state.unsolved_squares by decide) 1 0 [(none, false, false)] with
    spawned := 0 + 1 + (solveCands c5state 0 0 2 ⟨1, false⟩
      (show (0 : Int) < c5state.unsolved_squares by decide) 1 0 [(none, false, false)]).spawned
    localSpawned := (solveCands c5state 0 0 2 ⟨1, false⟩
      (show (0 : Int) < c5state.unsolved_squares by decide) 1 0
        [(none, false, false)]).localSpawned + 1 } : SolveOut)
    = ⟨some c5sol, ⟨1, true⟩, true, false, 1, 1⟩
  rw [c5_L1]
  rfl

/-- The classic shifted valid grid, as an assignment of candidate
indices: cell `(r, c)` holds value `(r * 3 + r / 3 + c) % 9 + 1`. -/
def gridA : Fin 9 → Fin 9 → Fin 9 :=
  fun r c => ⟨(r.val * 3 + r.val / 3 + c.val) % 9, by omega⟩

/-- The shifted grid is a valid assignment. -/
theorem gridA_valid : ValidAssign gridA := by
  unfold ValidAssign
  decide

/-- The shifted grid given in full as an 81-clue input. -/
def gridGivens : List (Option (Fin 9)) :=
  [some 0, some 1, some 2, some 3, some 4, some 5, some 6, some 7, some 8,
   some 3, some 4, some 5, some 6, some 7, some 8, some 0, some 1, some 2,
   some 6, some 7, some 8, some 0, some 1, some 2, some 3, some 4, some 5,
   some 1, some 2, some 3, some 4, some 5, some 6, some 7, some 8, some 0,
   some 4, some 5, some 6, some 7, some 8, some 0, some 1, some 2, some 3,
   some 7, some 8, some 0, some 1, some 2, some 3, some 4, some 5, some 6,
   some 2, some 3, some 4, some 5, some 6, some 7, some 8, some 0, some 1,
   some 5, some 6, some 7, some 8, some 0, some 1, some 2, some 3, some 4,
   some 8, some 0, some 1, some 2, some 3, some 4, some 5, some 6, some 7]

/-- Claim C1: for every puzzle input with exactly one solution, the
search with `max_threads = 1` from `(0, 0)` on the populated board
succeeds, and the board it reports carries exactly that unique
solution. -/
theorem C1_unique_solution_found (givens : List (Option (Fin 9)))
    (A : Fin 9 → Fin 9 → Fin 9)
    (hlen : givens.length = 81) (hVA : ValidAssign A)
    (hext : ∀ k : Nat, ∀ hk : k < 81, ∀ v : Fin 9,
      givens.getD k none = some v → A (posR k hk) (posC k hk) = v)
    (huniq : ∀ A' : Fin 9 → Fin 9 → Fin 9, ValidAssign A' →
      (∀ k : Nat, ∀ hk : k < 81, ∀ v : Fin 9,
        givens.getD k none = some v → A' (posR k hk) (posC k hk) = v) → A' = A) :
    ∃ s₀ b : State, populate_board_using_input givens = (s₀, true) ∧
      (parallel_solve s₀ 0 0 1 ⟨1, false⟩).found = some b ∧
      ∀ r c : Fin 9, (b.getSq r c).solution = ((A r c).val : Int) + 1 := by
  obtain ⟨s₀, heq, hinv, hC, hpres, hsolved⟩ := populateGivens_success A hVA givens initState 0
    (by omega)
    initState_inv (initState_compat A)
    (fun k hk _ => by rw [initState_getSq]; exact (by omega : ¬(0 : Int) < 0))
    (fun k hk _ v hg => hext k hk v (by rw [Nat.sub_zero] at hg; exact hg))
  have hfound : (parallel_solve s₀ 0 0 1 ⟨1, false⟩).found.isSome = true :=
    parallel_solve_complete s₀ 0 0 1 ⟨1, false⟩ rfl rfl rfl A hVA hC hinv
      (fun r c h => absurd h (by simp only [scanPos, rmIdx]; omega))
  obtain ⟨b, hb⟩ := Option.isSome_iff_exists.mp hfound
  obtain ⟨hinvb, hzero, hagree⟩ := parallel_solve_sound s₀ 0 0 1 ⟨1, false⟩ b hinv hb
  obtain ⟨B, hVB, hBsol⟩ := exists_assign_of_settled b hinvb hzero
  have hBext : ∀ k : Nat, ∀ hk : k < 81, ∀ v : Fin 9,
      givens.getD k none = some v → B (posR k hk) (posC k hk) = v := by
    intro k hk v hg
    have hs₀ := hsolved k hk (Nat.zero_le k) v (by rw [Nat.sub_zero]; exact hg)
    have hset : 0 < (s₀.getSq (posR k hk) (posC k hk)).solution := by
      rw [hs₀]
      omega
    have hag := hagree (posR k hk) (posC k hk) hset
    have hvb : ((B (posR k hk) (posC k hk)).val : Int) + 1 = (v.val : Int) + 1 := by
      rw [← hBsol, hag, hs₀]
    exact Fin.ext (by omega)
  have hBA : B = A := huniq B hVB hBext
  exact ⟨s₀, b, heq, hb, fun r c => by rw [hBsol, hBA]⟩

/-- The shifted-grid input extends only to the shifted-grid assignment. -/
theorem gridGivens_unique (A' : Fin 9 → Fin 9 → Fin 9)
    (hext : ∀ k : Nat, ∀ hk : k < 81, ∀ v : Fin 9,
      gridGivens.getD k none = some v → A' (posR k hk) (posC k hk) = v) : A' = gridA := by
  have hgrid : ∀ r c : Fin 9, gridGivens.getD (r.val * 9 + c.val) none = some (gridA r c) := by
    decide
  funext r c
  have hk : r.val * 9 + c.val < 81 := by omega
  have h1 := hext (r.val * 9 + c.val) hk (gridA r c) (hgrid r c)
  have e1 : posR (r.val * 9 + c.val) hk = r := Fin.ext (by simp only [posR]; omega)
  have e2 : posC (r.val * 9 + c.val) hk = c := Fin.ext (by simp only [posC]; omega)
  rw [e1, e2] at h1
  exact h1

/-- The witness puzzle: the full shifted grid has exactly one solution,
and the sequential search reproduces it. -/
theorem C1_witness : ∃ s₀ b : State,
    populate_board_using_input gridGivens = (s₀, true) ∧
    (parallel_solve s₀ 0 0 1 ⟨1, false⟩).found = some b ∧
    ∀ r c : Fin 9, (b.getSq r c).solution = ((gridA r c).val : Int) + 1 :=
  C1_unique_solution_found gridGivens gridA (by decide) gridA_valid (by decide)
    (fun A' _ hext' => gridGivens_unique A' hext')

/-- An input whose givens repeat a clue value inside one row. -/
def hasDuplicateInRow (givens : List (Option (Fin 9))) : Prop :=
  ∃ r c c' : Fin 9, c ≠ c' ∧ ∃ v : Fin 9,
    givens.getD (r.val * 9 + c.val) none = some v ∧
    givens.getD (r.val * 9 + c'.val) none = some v

/-- Duplicate 1s at `(0, 0)` and `(0, 1)`, and row 1 filled with
`2..9` leaving `(1, 0)` without candidates: the last given's propagation
fails and the populate assertion fires. -/
def c2givens : List (Option (Fin 9)) :=
  [some 0, some 0] ++ List.replicate 8 none ++
  [some 1, some 2, some 3, some 4, some 5, some 6, some 7, some 8] ++
  List.replicate 63 none

/-- Duplicate 1s alone: population succeeds despite the conflict. -/
def c2bgivens : List (Option (Fin 9)) :=
  [some 0, some 0] ++ List.replicate 79 none

/-- Claim C2 counterexample: a duplicated clue value in one row is not
always handled as a recoverable failure — on `c2givens` population
aborts through the assertion instead of reaching the search at all. -/
theorem C2_counterexample :
    ¬(∀ givens : List (Option (Fin 9)), givens.length = 81 → hasDuplicateInRow givens →
        (populate_board_using_input givens).2 = true ∧
        (parallel_solve (populate_board_using_input givens).1 0 0 1 ⟨1, false⟩).found
          = none) := by
  intro h
  exact absurd (h c2givens (by decide)
    ⟨0, 0, 1, by decide, 0, by decide, by decide⟩).1 (by decide)

/-- Claim C2 (amended): a contradiction among the givens is handled by
the `assert!` in `populate_board_using_input`, not by the search's
branch-failure path: there are duplicate-row inputs on which population
aborts fatally, and others on which the contradiction passes population
entirely. -/
theorem C2_amended :
    (∃ givens : List (Option (Fin 9)), givens.length = 81 ∧ hasDuplicateInRow givens ∧
      (populate_board_using_input givens).2 = false) ∧
    (∃ givens : List (Option (Fin 9)), givens.length = 81 ∧ hasDuplicateInRow givens ∧
      (populate_board_using_input givens).2 = true) :=
  ⟨⟨c2givens, by decide, ⟨0, 0, 1, by decide, 0, by decide, by decide⟩, by decide⟩,
   ⟨c2bgivens, by decide, ⟨0, 0, 1, by decide, 0, by decide, by decide⟩, by decide⟩⟩

/-- A square holding only the candidate 1, used to make a clearing loop
fail early. -/
def c3cell : Square :=
  { solution := 0, num_possible := 1
    possible := ⟨[true, false, false, false, false, false, false, false, false], rfl⟩ }

def c3state : State := initState.setSq 0 1 c3cell

/-- Claim C3 counterexample: a settle call meeting all preconditions can
return with the value still present in a peer's candidate set — settling
1 at `(0, 0)` of `c3state` dies at peer `(0, 1)` and never clears peer
`(0, 2)`. -/
theorem C3_counterexample :
    ¬(∀ (s : State) (r c i : Fin 9), ¬0 < (s.getSq r c).solution →
        0 < s.unsolved_squares →
        (∀ r' c' : Fin 9, isPeer r c r' c' →
          (((s.propagate_solution r c i).1).getSq r' c').possible.get i = false) ∧
        ((s.propagate_solution r c i).2 = true ↔
          ∀ r' c' : Fin 9, isPeer r c r' c' →
            (((s.propagate_solution r c i).1).getSq r' c').is_valid = true)) := by
  intro h
  exact absurd ((h c3state 0 0 0 (by decide) (by decide)).1 0 2 (by decide)) (by decide)

/-- Claim C3 (amended): when the settle call reports validity, the value
is absent from every peer's candidate set and every peer is valid; when
it reports invalidity, some peer is invalid in the returned state — but
the clearing may then be incomplete. -/
theorem C3_amended : ∀ (s s' : State) (r c i : Fin 9),
    (s.propagate_solution r c i = (s', true) →
      ∀ r' c' : Fin 9, isPeer r c r' c' →
        (s'.getSq r' c').possible.get i = false ∧ (s'.getSq r' c').is_valid = true) ∧
    (s.propagate_solution r c i = (s', false) →
      ∃ r' c' : Fin 9, isPeer r c r' c' ∧ (s'.getSq r' c').is_valid = false) := by
  intro s s' r c i
  constructor
  · intro h r' c' hp
    have hm : ((r', c') : Fin 9 × Fin 9) ∈ rowCells r ++ colCells c ++ blockCells r c :=
      (mem_touched_iff r c (r', c')).mpr (Or.inr hp)
    exact ⟨State.propagate_true_clears s s' r c i h (r', c') hm,
      State.propagate_true_valid s s' r c i h (r', c') hm⟩
  · intro h
    obtain ⟨p, hp, hbad⟩ := State.propagate_false_invalid s s' r c i h
    rcases (mem_touched_iff r c p).mp hp with he | hpeer
    · exfalso
      have hfst : (s.propagate_solution r c i).1 = s' := by rw [h]
      have htar := State.propagate_target s r c i
      rw [hfst] at htar
      rw [he] at hbad
      dsimp only at hbad
      rw [htar, Square.is_valid_eq_false_iff] at hbad
      have h1 : ((i.val : Int) + 1 ≤ 0) := hbad.1
      omega
    · exact ⟨p.1, p.2, hpeer, hbad⟩

/-- Witness for the amended C3 on a fresh board: a successful settle at
`(0, 0)` clears and keeps valid the peer `(0, 1)`. -/
theorem C3_witness :
    ((initState.propagate_solution 0 0 0).1.getSq 0 1).possible.get 0 = false ∧
    ((initState.propagate_solution 0 0 0).1.getSq 0 1).is_valid = true :=
  (C3_amended initState ((initState.propagate_solution 0 0 0).1) 0 0 0).1 (by decide)
    0 1 (by decide)

/-- The spec-side allocator: reserve one thread per viable candidate
("adds k"). -/
def spec_extra_threads_to_request (k : Int) : Int := k

/-- The spec-side grant: headroom under `max_workers`, capped at `k`. -/
def spec_extra_threads_available (max_threads pre k : Int) : Int :=
  min (max (max_threads - pre) 0) k

/-- Claim C4 counterexample: at the three-candidate branch point of
`c4state` with ample `max_threads`, the spec-side allocator promises
three spawned workers but the implementation spawns only two — it
reserves and dispatches per candidate beyond the first. -/
theorem C4_counterexample :
    ¬(∀ (s : State) (r c : Fin 9) (maxT : Int) (g : GState)
        (hu : 0 < s.unsolved_squares),
        (parallel_solve_impl s r c maxT g hu).localSpawned
          = (spec_extra_threads_available maxT g.quota
              ((s.getSq r c).flagCount : Int)).toNat) := by
  intro h
  have hval := h c4state 0 0 100 ⟨1, false⟩
    (show (0 : Int) < c4state.unsolved_squares by decide)
  rw [c4_run] at hval
  exact absurd hval (by decide)

/-- Claim C4 (amended): the allocator requests `num_possible - 1` extra
threads (one per candidate beyond the current thread), reads the
pre-update counter, grants `min(max(max_threads - pre, 0), requested)`
and releases the overflow; at the concrete three-candidate branch point
exactly the granted number of candidates (two) are dispatched as spawned
workers, the rest sequentially. -/
theorem C4_amended :
    (∀ (s : State) (r c : Fin 9) (maxT : Int) (g : GState)
      (hu : 0 < s.unsolved_squares),
      parallel_solve_impl s r c maxT g hu =
        solveCands s r c maxT
          ⟨g.quota + extra_threads_to_request ((s.getSq r c).num_possible)
              - quota_overflow (extra_threads_to_request ((s.getSq r c).num_possible))
                  (extra_threads_available_calc maxT g.quota
                    (extra_threads_to_request ((s.getSq r c).num_possible))),
            g.cancelled⟩ hu 0
          (extra_threads_available_calc maxT g.quota
            (extra_threads_to_request ((s.getSq r c).num_possible))) []) ∧
    extra_threads_to_request ((c4state.getSq 0 0).num_possible)
        = ((c4state.getSq 0 0).flagCount : Int) - 1 ∧
    (parallel_solve_impl c4state 0 0 100 ⟨1, false⟩
        (show (0 : Int) < c4state.unsolved_squares by decide)).localSpawned
      = (extra_threads_available_calc 100 1
          (extra_threads_to_request ((c4state.getSq 0 0).num_possible))).toNat := by
  refine ⟨parallel_solve_impl_eq, by decide, ?_⟩
  rw [c4_run]
  decide

/-- Witness for the amended C4 at the concrete branch point. -/
theorem C4_witness : parallel_solve_impl c4state 0 0 100 ⟨1, false⟩
      (show (0 : Int) < c4state.unsolved_squares by decide)
    = solveCands c4state 0 0 100
        ⟨(1 : Int) + extra_threads_to_request ((c4state.getSq 0 0).num_possible)
            - quota_overflow (extra_threads_to_request ((c4state.getSq 0 0).num_possible))
                (extra_threads_available_calc 100 1
                  (extra_threads_to_request ((c4state.getSq 0 0).num_possible))),
          false⟩ (show (0 : Int) < c4state.unsolved_squares by decide) 0
        (extra_threads_available_calc 100 1
          (extra_threads_to_request ((c4state.getSq 0 0).num_possible))) [] :=
  C4_amended.1 c4state 0 0 100 ⟨1, false⟩
    (show (0 : Int) < c4state.unsolved_squares by decide)

/-- Claim C5 counterexample: a branch can return while a spawned
worker's handle is still unjoined — at the two-candidate branch point of
`c5state` the sequential success drops the spawned worker. -/
theorem C5_counterexample :
    ¬(∀ (s : State) (r c : Fin 9) (maxT : Int) (g : GState)
        (hu : 0 < s.unsolved_squares),
        (parallel_solve_impl s r c maxT g hu).leaked = false) := by
  intro h
  have hval := h c5state 0 0 2 ⟨1, false⟩
    (show (0 : Int) < c5state.unsolved_squares by decide)
  rw [c5_run] at hval
  exact absurd hval (by decide)

/-- Claim C5 (amended): the join loop's result is the OR of the worker
results, but the branch does not always join every spawned child: on a
sequential success it returns at once, dropping the already-spawned
workers' handles, as the concrete leaked run shows. -/
theorem C5_amended :
    (∀ (l : List (Option State × Bool × Bool)) (g : GState),
      (joinLoop l g).found.isSome = l.any fun e => e.1.isSome) ∧
    (parallel_solve_impl c5state 0 0 2 ⟨1, false⟩
        (show (0 : Int) < c5state.unsolved_squares by decide)).found.isSome = true ∧
    (parallel_solve_impl c5state 0 0 2 ⟨1, false⟩
        (show (0 : Int) < c5state.unsolved_squares by decide)).leaked = true := by
  refine ⟨joinLoop_found_isSome, ?_, ?_⟩
  · rw [c5_run]
    rfl
  · rw [c5_run]

/-- Claim C6: with `max_threads = 1` and the quota counter at its
initial value, the search never spawns a worker. -/
theorem C6_fully_sequential (s : State) (row col : Nat) (g : GState) (hq : g.quota = 1) :
    (parallel_solve s row col 1 g).spawned = 0 :=
  (parallel_solve_seq_facts s row col 1 g rfl hq).2.1

/-- Witness for C6 on the fresh board. -/
theorem C6_witness : (parallel_solve initState 0 0 1 ⟨1, false⟩).spawned = 0 :=
  C6_fully_sequential initState 0 0 ⟨1, false⟩ rfl

/-- Claim C7 counterexample: the search on the populated defective input
reaches terminal success (`unsolved_squares = 0`) and reports a board
that is not a valid complete solution (row 0 carries the value 1
twice). -/
theorem C7_counterexample :
    (populate_board_using_input c7givens).2 = true ∧
    (parallel_solve c7state 0 0 1 ⟨1, false⟩).found = some c7final ∧
    c7final.unsolved_squares = 0 ∧
    ¬isCompleteSolution c7final := by
  refine ⟨c7_populate_ok, c7_run, by decide, c7_not_complete⟩

/-- Claim C7 (amended): a reported board is always fully settled; it is
a valid complete solution whenever the search started from a state
satisfying the board invariants — which the defective input does not. -/
theorem C7_amended (s : State) (row col : Nat) (maxT : Int) (g : GState) (b : State)
    (hinv : State.Inv s) (hfound : (parallel_solve s row col maxT g).found = some b) :
    isCompleteSolution b ∧ b.unsolved_squares = 0 := by
  obtain ⟨hinvb, hzero, _⟩ := parallel_solve_sound s row col maxT g b hinv hfound
  exact ⟨isCompleteSolution_of_inv b hinvb hzero, hzero⟩

/-- The shifted grid as a fully settled board state. -/
def bfullCell (r c : Fin 9) : Square :=
  { solution := ((gridA r c).val : Int) + 1, num_possible := 0
    possible := Vector.replicate 9 false }

def bfull : State :=
  { unsolved_squares := 0
    board := Vector.ofFn fun r => Vector.ofFn fun c => bfullCell r c }

theorem bfull_getSq (r c : Fin 9) : bfull.getSq r c = bfullCell r c := by
  unfold bfull State.getSq
  rw [Vector.get_ofFn, Vector.get_ofFn]

/-- The settled shifted-grid board satisfies the invariants. -/
theorem bfull_inv : State.Inv bfull := by
  refine ⟨?_, ?_, ?_, ?_, ?_, ?_⟩
  · intro r c _
    rw [bfull_getSq]
    exact ⟨rfl, fun j => Vector.get_replicate false j⟩
  · unfold State.CountOk
    rw [show State.unsettledCount bfull = 0 from ?_]
    · rfl
    · unfold State.unsettledCount
      rw [Finset.card_eq_zero, Finset.filter_eq_empty_iff]
      intro p _
      rw [bfull_getSq]
      rw [not_not]
      show (0 : Int) < ((gridA p.1 p.2).val : Int) + 1
      omega
  · intro r c
    rw [bfull_getSq]
    rw [show Square.flagCount (bfullCell r c) = 0 from
      Square.flagCount_replicate_false _ _]
    rfl
  · intro r c r' c' hp h1 h2
    rw [bfull_getSq, bfull_getSq]
    intro he
    have hv : (gridA r c).val = (gridA r' c').val := by
      have he' : ((gridA r c).val : Int) + 1 = ((gridA r' c').val : Int) + 1 := he
      omega
    exact gridA_valid r c r' c' hp (Fin.ext hv)
  · intro r c r' c' i hp hsol
    rw [bfull_getSq]
    exact Vector.get_replicate false i
  · intro r c
    right
    exact ⟨gridA r c, by rw [bfull_getSq]; rfl⟩

/-- Witness for the amended C7 on a finished invariant board. -/
theorem C7_witness : isCompleteSolution bfull ∧ bfull.unsolved_squares = 0 :=
  C7_amended bfull 0 0 1 ⟨1, false⟩ bfull bfull_inv
    (by rw [parallel_solve_done bfull 0 0 1 ⟨1, false⟩ rfl (by decide)])

/-- Claim C8 counterexample: from a board reachable by settles consistent
with peer constraints, a still-possible candidate can equal a settled
peer's value — `c8s9` keeps candidate 1 at `(0, 0)` although `(1, 0)` is
settled to 1. -/
theorem C8_counterexample :
    ¬(∀ s : State, ReachableBySettles s → ∀ r c i : Fin 9,
        ¬0 < (s.getSq r c).solution → (s.getSq r c).possible.get i = true →
        ∀ r' c' : Fin 9, isPeer r c r' c' →
          (s.getSq r' c').solution ≠ (i.val : Int) + 1) := by
  intro h
  exact absurd (by decide : (c8s9.getSq 1 0).solution = ((0 : Fin 9).val : Int) + 1)
    (h c8s9 c8s9_reachable 0 0 0 (by decide) (by decide) 1 0 (by decide))

/-- Claim C8 (amended): as long as every settle in the chain reported
validity, a still-possible candidate never equals a settled peer's
value; the guarantee is lost once a failed settle is ignored. -/
theorem C8_amended (s : State) (h : ReachableByValidSettles s) (r c i : Fin 9)
    (hflag : (s.getSq r c).possible.get i = true) (r' c' : Fin 9)
    (hp : isPeer r c r' c') : (s.getSq r' c').solution ≠ (i.val : Int) + 1 := by
  intro hsol
  have hinv := Inv_of_reachableByValidSettles s h
  have hcl := hinv.2.2.2.2.1 r' c' r c i (isPeer_symm r c r' c' hp) hsol
  rw [hcl] at hflag
  exact absurd hflag (by simp)

/-- Witness for the amended C8 on the fresh board. -/
theorem C8_witness : (initState.getSq 0 1).solution ≠ ((0 : Fin 9).val : Int) + 1 :=
  C8_amended initState ReachableByValidSettles.init 0 0 0 (by decide) 0 1 (by decide)

/-- Claim C9: a settle call on an unsettled square of a well-formed board
keeps the board well-formed: settled squares have empty candidate sets
and `unsolved_squares` counts the unsettled squares — on early-return
paths as well. -/
theorem C9_wellformed (s : State) (r c i : Fin 9)
    (hse : State.SettledEmpty s) (hco : State.CountOk s)
    (htgt : ¬0 < (s.getSq r c).solution) :
    State.SettledEmpty ((s.propagate_solution r c i).1) ∧
    State.CountOk ((s.propagate_solution r c i).1) :=
  ⟨State.SettledEmpty_propagate s r c i hse htgt,
   State.CountOk_propagate s r c i hco htgt⟩

/-- Witness for C9: the first settle on the fresh board. -/
theorem C9_witness : State.SettledEmpty ((initState.propagate_solution 0 0 0).1) ∧
    State.CountOk ((initState.propagate_solution 0 0 0).1) :=
  C9_wellformed initState 0 0 0 initState_inv.1 initState_inv.2.1 (by decide)

/-- Claim C10: when every square before the cursor is settled and the
count is accurate — as holds for every call reachable from the initial
one — the scan cannot exhaust the board while squares remain, and the
trailing `assert!(false)` of `parallel_solve` is never reached. -/
theorem C10_no_panic (s : State) (row col : Nat) (maxT : Int) (g : GState)
    (hco : State.CountOk s) (hsb : State.settledBefore s (scanPos row col)) :
    (parallel_solve s row col maxT g).panicked = false ∧
    (0 < s.unsolved_squares → scanFrom s row col ≠ ScanResult.exhausted) :=
  ⟨parallel_solve_no_panic s row col maxT g hco hsb,
   fun hu hscan => not_exhausted_of_settledBefore s row col hco hu hsb hscan⟩

/-- Witness for C10 at the initial call on the fresh board. -/
theorem C10_witness : (parallel_solve initState 0 0 1 ⟨1, false⟩).panicked = false ∧
    (0 < initState.unsolved_squares → scanFrom initState 0 0 ≠ ScanResult.exhausted) :=
  C10_no_panic initState 0 0 1 ⟨1, false⟩ initState_inv.2.1
    (fun r c h => absurd h (by simp only [scanPos, rmIdx]; omega))
